import Mathlib

/-!
Verification development for the dedup-tool repository (package core).

The Go sources under src/core are shallowly embedded below:
pure functions become Lean functions, the in-memory storage and the
filesystem become explicit state records, Go maps become association
lists (Go map iteration order is nondeterministic; folds below iterate
in list order, and every property proved here is insensitive to that
choice or quantifies over the relevant data), and Go pointers to the
per-pair FolderSimilarity objects are modelled by the position of the
pair in the pair map together with the stored side order, which
determines object identity because the code creates exactly one pair
object per canonical key and never replaces it.

Machine integers (Go int, int32, int64) are modelled as Nat or Int;
every operation embedded here only increments or appends, so no
overflow wrap is observable in the embedded fragment.
-/

/-! ## String primitives

Go compares strings byte-lexicographically; on UTF-8 data that order
coincides with code point order, so the embedding compares character
lists.  The Lean core string order and substring functions are
re-implemented on List Char so that every definition evaluates by
kernel reduction. -/

/-- Go string less-than (byte lexicographic, equals code point
lexicographic on UTF-8). -/
def charListLt : List Char → List Char → Bool
  | [], [] => false
  | [], _ :: _ => true
  | _ :: _, [] => false
  | a :: as, b :: bs => if a < b then true else if b < a then false else charListLt as bs

def goStrLt (a b : String) : Bool := charListLt a.data b.data

/-- strings.HasPrefix. -/
def goHasPrefix (pre s : String) : Bool := pre.data.isPrefixOf s.data

/-- The first-byte test used for hidden names: strings.HasPrefix(name,
".") and name[0] == '.' agree on the non-empty names the walker
produces. -/
def hasDotPrefix (s : String) : Bool :=
  match s.data with
  | c :: _ => c = '.'
  | [] => false

/-- strings.Split on a one character separator. -/
def splitChar (c : Char) : List Char → List (List Char)
  | [] => [[]]
  | x :: xs =>
    if x = c then [] :: splitChar c xs
    else match splitChar c xs with
      | [] => [[x]]
      | p :: ps => (x :: p) :: ps

/-- strings.Split(key, ":") as used on pair keys. -/
def goSplit (s : String) : List String :=
  (splitChar ':' s.data).map (fun l => String.mk l)

/-- The slash components of a path. -/
def splitSlash (p : String) : List String :=
  (splitChar '/' p.data).map (fun l => String.mk l)

def joinSlash : List String → String
  | [] => ""
  | [x] => x
  | x :: xs => x ++ "/" ++ joinSlash xs

/-! ## Path helpers (Go path/filepath on clean relative slash paths)

The scanner produces clean, slash separated paths relative to the scan
root (fs.WalkDir yields "p/a/x" style paths and "." for the root), so
filepath.Dir, filepath.Base and filepath.Join are embedded for that
shape of input: Dir drops the last component (returning "." when there
is none), Base returns the last component, Join concatenates with "/"
while dropping "." and empty elements like Go Clean does for these
inputs. -/

def goDir (p : String) : String :=
  let parts := splitSlash p
  if parts.length ≤ 1 then "."
  else joinSlash parts.dropLast

def goBase (p : String) : String :=
  if p = "" then "."
  else ((splitSlash p).getLast?).getD p

def goJoin (a b : String) : String :=
  if b = "" then a
  else if a = "." then b
  else if a = "" then b
  else a ++ "/" ++ b

/-! ## Similarity checker (src/core/checker.go)

FolderSimilarity is embedded as Side: the wrapped folder is identified
by its path (Storage keeps exactly one Folder object per path, and
Folder.Parent is the folder at filepath.Dir of the path), FileCount is
the recursive file count snapshotted at pair creation,
DuplicateFiles is the insertion ordered list of its keys (basenames;
the mapped File values are never read back, only the key set and its
size), and DuplicateFileCount the Go counter. -/

structure Side where
  path : String
  fileCount : Nat
  dupFiles : List String
  dupCount : Nat
deriving DecidableEq

abbrev FolderPair := Side × Side

/-- similarityFolderPairs: Go map[string][2]*FolderSimilarity as an
association list in insertion order. -/
abbrev PairMap := List (String × FolderPair)

def alookup {β : Type _} : List (String × β) → String → Option β
  | [], _ => none
  | e :: es, k => if e.1 = k then some e.2 else alookup es k

def alookupD {β : Type _} (m : List (String × β)) (k : String) (d : β) : β :=
  (alookup m k).getD d

def folderPairKey (path1 path2 : String) : String :=
  if goStrLt path2 path1 then path2 ++ ":" ++ path1
  else path1 ++ ":" ++ path2

def mkSide (fc : String → Nat) (p : String) : Side :=
  { path := p, fileCount := fc p, dupFiles := [], dupCount := 0 }

/-- Pair creation half of getDuplicatedFolderPair: if the canonical key
is absent a fresh pair is stored with the sides in argument order
(fc is Storage GetFileCount, read at creation time). -/
def ensurePair (fc : String → Nat) (m : PairMap) (p1 p2 : String) : PairMap :=
  match alookup m (folderPairKey p1 p2) with
  | some _ => m
  | none => m ++ [(folderPairKey p1 p2, (mkSide fc p1, mkSide fc p2))]

/-- Orientation half of getDuplicatedFolderPair and of
getFolderSimilarity: the first returned side is pair[0] when its path
matches the first requested path, otherwise pair[1]. -/
def orientPair (pr : FolderPair) (p : String) : FolderPair :=
  if pr.1.path = p then (pr.1, pr.2) else (pr.2, pr.1)

/-- Mutation through the two pointers returned by
getDuplicatedFolderPair: fa is applied to the side oriented to path p,
fb to the other side, writing back in stored order. -/
def updOriented (m : PairMap) (k p : String) (fa fb : Side → Side) : PairMap :=
  m.map (fun e =>
    if e.1 = k then
      (e.1, if e.2.1.path = p then (fa e.2.1, fb e.2.2) else (fb e.2.1, fa e.2.2))
    else e)

/-- The step of CalculateSimilarity that records a duplicated basename
on one side: insert into DuplicateFiles if absent and bump the count. -/
def addName (n : String) (s : Side) : Side :=
  if n ∈ s.dupFiles then s
  else { s with dupFiles := s.dupFiles ++ [n], dupCount := s.dupCount + 1 }

/-- The step of calculateParentFolderSimilarity that adds a descendant
count to an ancestor side. -/
def addCount (c : Nat) (s : Side) : Side :=
  { s with dupCount := s.dupCount + c }

/-- A file as seen by CalculateSimilarity: its basename (File.Name) and
the path of its parent folder (File.Parent.Path). -/
structure GFile where
  name : String
  parent : String
deriving DecidableEq

/-- The i < j double loop over the files of one matched group. -/
def pairsOf : List GFile → List (GFile × GFile)
  | [] => []
  | x :: xs => xs.map (fun y => (x, y)) ++ pairsOf xs

/-- Body of the file-similarity double loop of CalculateSimilarity for
one (i, j) pair of files of a group. -/
def stepAPair (fc : String → Nat) (m : PairMap) (fi fj : GFile) : PairMap :=
  let m := ensurePair fc m fi.parent fj.parent
  updOriented m (folderPairKey fi.parent fj.parent) fi.parent
    (addName fi.name) (addName fj.name)

/-- The "calculate file similarity" phase of CalculateSimilarity. -/
def stepA (fc : String → Nat) (groups : List (List GFile)) : PairMap :=
  groups.foldl (fun m g => (pairsOf g).foldl (fun m pr => stepAPair fc m pr.1 pr.2) m) []

/-- SplitPath (checker.go). -/
def splitPathAux : Nat → String → List String → List String
  | 0, _, acc => acc
  | fuel + 1, path, acc =>
    if path = "." ∨ path = "/" then acc
    else
      let folder := goBase (goDir path)
      let acc := if folder ≠ "." ∧ folder ≠ "/" then folder :: acc else acc
      splitPathAux fuel (goDir path) acc

def SplitPath (p : String) : List String :=
  splitPathAux ((splitSlash p).length + 2) p [goBase p]

/-- The common parent loop shared by calculateParentFolderSimilarity
and DeleteSimilarityGroup. -/
def commonParentAux : List String → List String → String → String
  | a :: as, b :: bs, cp => if a ≠ b then cp else commonParentAux as bs (goJoin cp a)
  | _, _, cp => cp

def commonParent (p1 p2 : String) : String :=
  commonParentAux (SplitPath p1) (SplitPath p2) "."

/-- The ancestor chain walked by "for currentFolder.Path != commonParent":
the folder itself and its proper ancestors, stopping before stop.
Fuel bounds the walk; for the clean paths produced by the scanner the
stop path is always reached first (the Go loop would not terminate
otherwise). -/
def chainTo : Nat → String → String → List String
  | 0, _, _ => []
  | fuel + 1, p, stop => if p = stop then [] else p :: chainTo fuel (goDir p) stop

def ancestorChain (p stop : String) : List String :=
  chainTo ((splitSlash p).length + 2) p stop

/-- calculateParentFolderSimilarity for the pair stored as
(side path p1, side path p2) with entry counts c1 and c2.

The Go guards compare pointers: folder1 == folder2 never holds (the
two sides of a pair are distinct objects) and folder1.Parent ==
folder2.Parent holds exactly when the two parent paths coincide
(Storage keeps one folder object per path; when one side is the root
its Parent is nil, and then either both are the root, making the dirs
equal, or the root chain is empty so the loops do nothing, which is
also what an early return does).  The condition f1 != folder1 (and the
equivalent f2 != folder2) holds unless the inner pair is the entry
pair itself, i.e. unless the key coincides and currentFolder1 is the
stored first side. -/
def propagate (fc : String → Nat) (p1 p2 : String) (c1 c2 : Nat) (m : PairMap) : PairMap :=
  if goDir p1 = goDir p2 then m
  else
    let cp := commonParent p1 p2
    (ancestorChain p1 cp).foldl (fun m a =>
      (ancestorChain p2 cp).foldl (fun m b =>
        let m := ensurePair fc m a b
        let same := folderPairKey a b = folderPairKey p1 p2 ∧ a = p1
        updOriented m (folderPairKey a b) a
          (fun s => if same then s else addCount c1 s)
          (fun s => if same then s else addCount c2 s)) m) m

/-- The "apply matched folder count to parent folder" phase: iterate
over the pairs produced by step A; maps.Clone shares the side objects,
so each entry is re-read from the current map (its counts may have
been bumped by an earlier propagation). -/
def stepB (fc : String → Nat) (m0 : PairMap) : PairMap :=
  (m0.map Prod.fst).foldl (fun m k =>
    match alookup m k with
    | none => m
    | some pr => propagate fc pr.1.path pr.2.path pr.1.dupCount pr.2.dupCount m) m0

/-- The similarity index held by SimilarityChecker after
CalculateSimilarity: the pair map and the reverse index
similarityFolderMap (folder path to pair keys). -/
structure SimState where
  pairs : PairMap
  simMap : List (String × List String)
deriving DecidableEq

def appendKey (sm : List (String × List String)) (p k : String) : List (String × List String) :=
  match alookup sm p with
  | some _ => sm.map (fun e => if e.1 = p then (e.1, e.2 ++ [k]) else e)
  | none => sm ++ [(p, [k])]

/-- The reverse-index build at the end of CalculateSimilarity. -/
def buildSimMap (m : PairMap) : List (String × List String) :=
  m.foldl (fun sm e =>
    let paths := goSplit e.1
    match paths with
    | [pa, pb] => if pa = pb then sm else appendKey (appendKey sm pa e.1) pb e.1
    | _ => sm) []

/-- CalculateSimilarity (checker.go): fc is Storage recursive file
count per folder path, groups the matched file groups. -/
def CalculateSimilarity (fc : String → Nat) (groups : List (List GFile)) : SimState :=
  let m := stepB fc (stepA fc groups)
  { pairs := m, simMap := buildSimMap m }

/-- getFolderSimilarity (checker.go). -/
def getFolderSimilarity (path1 path2 : String) (m : PairMap) : Except String FolderPair :=
  match alookup m (folderPairKey path1 path2) with
  | none => Except.error "folder pair not found"
  | some pr => Except.ok (orientPair pr path1)

/-- FolderSimilarity.DuplicatedPercentage; Go computes in float64, the
embedding uses exact rationals (the comparisons below only ever
involve equal or strictly ordered finite values on the inputs of the
claims). -/
def duplicatedPercentage (s : Side) : ℚ :=
  (s.dupCount : ℚ) * 100 / (s.fileCount : ℚ)

/-- The sort.Slice comparator of GetSimilarityFolderGroup. -/
def groupLess (x y : FolderPair) : Prop :=
  duplicatedPercentage x.1 > duplicatedPercentage y.1 ∨
    (duplicatedPercentage x.1 = duplicatedPercentage y.1 ∧
      (duplicatedPercentage x.2 > duplicatedPercentage y.2 ∨
        (duplicatedPercentage x.2 = duplicatedPercentage y.2 ∧
          x.1.dupFiles.length > y.1.dupFiles.length)))

instance : DecidableRel groupLess := fun x y => by
  unfold groupLess; infer_instance

/-- GetSimilarityFolderGroup (checker.go). -/
def GetSimilarityFolderGroup (st : SimState) (path : String) : List FolderPair :=
  let out := (alookupD st.simMap path []).foldl (fun out k =>
    match goSplit k with
    | [pa, pb] =>
      match getFolderSimilarity pa pb st.pairs with
      | Except.error _ => out
      | Except.ok pr => if pr.1.path = path then out ++ [pr] else out ++ [(pr.2, pr.1)]
    | _ => out) []
  out.insertionSort groupLess

/-! ## GetMatchedFilePairs (checker.go) -/

/-- A file as seen by GetMatchedFilePairs: basename and fingerprint. -/
structure HFile where
  name : String
  hash : String
deriving DecidableEq

def hashLE (x y : HFile) : Prop := goStrLt y.hash x.hash = false

instance : DecidableRel hashLE := fun x y =>
  inferInstanceAs (Decidable (goStrLt y.hash x.hash = false))

/-- The sort.Slice calls on files1 and files2: some permutation sorted
by fingerprint (the Go sort is unstable; every property claimed of the
result is invariant under the choice among equal fingerprints). -/
def sortByHash (l : List HFile) : List HFile := l.insertionSort hashLE

/-- The two-pointer merge loop of GetMatchedFilePairs. -/
def matchMerge : List HFile → List HFile →
    List (HFile × HFile) × List HFile × List HFile
  | [], bs => ([], [], bs)
  | a :: as, [] =>
    let r := matchMerge as []
    (r.1, a :: r.2.1, r.2.2)
  | a :: as, b :: bs =>
    if a.hash = b.hash then
      let r := matchMerge as bs
      ((a, b) :: r.1, r.2.1, r.2.2)
    else if a.hash < b.hash then
      let r := matchMerge as (b :: bs)
      (r.1, a :: r.2.1, r.2.2)
    else
      let r := matchMerge (a :: as) bs
      (r.1, r.2.1, b :: r.2.2)

/-- GetMatchedFilePairs on the direct file lists of the two folders. -/
def GetMatchedFilePairs (files1 files2 : List HFile) :
    List (HFile × HFile) × List HFile × List HFile :=
  matchMerge (sortByHash files1) (sortByHash files2)

/-! ## Storage (MemoryStorage in checker.go, Folder in executor.go)

File objects are embedded as StFile records; pointer identity is
modelled by record identity, which coincides with it on reachable
states because Storage holds at most one file object per path.  The
Parent back pointer is the folder at goDir of the path and is not
stored separately; the atomic fileCountCache is a concurrency cache
with no observable effect on the sequential operations embedded
here. -/

structure StFile where
  name : String
  path : String
  hash : String
  size : Int
  modTime : Nat
deriving DecidableEq

structure FolderRec where
  name : String
  path : String
  childNames : List String
  files : List StFile
  fileCount : Int
deriving DecidableEq

structure MemStorage where
  folders : List (String × FolderRec)
  matched : List (String × List StFile)
  hashMap : List (String × StFile)
deriving DecidableEq

/-- sync.Map.Store on the name keyed file map of a folder. -/
def storeByName (fs : List StFile) (f : StFile) : List StFile :=
  if fs.any (fun g => g.name = f.name) then
    fs.map (fun g => if g.name = f.name then f else g)
  else fs ++ [f]

def updFolder (s : MemStorage) (p : String) (f : FolderRec → FolderRec) : MemStorage :=
  { s with folders := s.folders.map (fun e => if e.1 = p then (e.1, f e.2) else e) }

/-- MemoryStorage.GetFolder: look up the folder, creating it and its
ancestor chain when absent.  The Go error return is always nil (both
base cases succeed and filepath.Dir reaches "." or "/" on every path),
so the embedding is total; fuel bounds the ancestor recursion. -/
def getFolderAux : Nat → MemStorage → String → MemStorage
  | fuelArg, s, path =>
    if (alookup s.folders path).isSome then s
    else if path = "." ∨ path = "/" then
      { s with folders := s.folders ++
          [(path, { name := path, path := path, childNames := [], files := [], fileCount := 0 })] }
    else
      match fuelArg with
      | 0 => s
      | fuel + 1 =>
        let s := getFolderAux fuel s (goDir path)
        let s := updFolder s (goDir path)
          (fun fr => { fr with childNames := fr.childNames ++ [goBase path] })
        { s with folders := s.folders ++
            [(path, { name := goBase path, path := path, childNames := [], files := [], fileCount := 0 })] }

def GetFolder (s : MemStorage) (path : String) : MemStorage :=
  getFolderAux ((splitSlash path).length + 2) s path

/-- Folder.AddFile (executor.go): store under the basename, set the
Parent back pointer, bump the direct count. -/
def folderAddFile (s : MemStorage) (p : String) (f : StFile) : MemStorage :=
  updFolder s p (fun fr =>
    { fr with files := storeByName fr.files f, fileCount := fr.fileCount + 1 })

/-- Folder.RemoveFile (executor.go): delete the basename (a no-op when
absent), clear the Parent back pointer, decrement the direct count;
it always returns nil. -/
def folderRemoveFile (s : MemStorage) (p : String) (f : StFile) : MemStorage :=
  updFolder s p (fun fr =>
    { fr with files := fr.files.filter (fun g => g.name ≠ f.name),
              fileCount := fr.fileCount - 1 })

def setHash (s : MemStorage) (h : String) (f : StFile) : MemStorage :=
  if (alookup s.hashMap h).isSome then
    { s with hashMap := s.hashMap.map (fun e => if e.1 = h then (e.1, f) else e) }
  else { s with hashMap := s.hashMap ++ [(h, f)] }

def setMatched (s : MemStorage) (h : String) (g : List StFile) : MemStorage :=
  if (alookup s.matched h).isSome then
    { s with matched := s.matched.map (fun e => if e.1 = h then (e.1, g) else e) }
  else { s with matched := s.matched ++ [(h, g)] }

/-- MemoryStorage.AddFile. -/
def AddFile (s : MemStorage) (f : StFile) : MemStorage :=
  let s := GetFolder s (goDir f.path)
  let s := folderAddFile s (goDir f.path) f
  match alookup s.hashMap f.hash with
  | none => setHash s f.hash f
  | some mf =>
    match alookup s.matched f.hash with
    | some g => setMatched s f.hash (g ++ [f])
    | none => setMatched s f.hash [f, mf]

/-- MemoryStorage.RemoveFile; the Option String is the Go error. -/
def RemoveFile (s : MemStorage) (f : StFile) : MemStorage × Option String :=
  let s := GetFolder s (goDir f.path)
  let s := folderRemoveFile s (goDir f.path) f
  match alookup s.matched f.hash with
  | some g =>
    let g := g.filter (fun x => x ≠ f)
    if g.length = 0 then
      ({ s with matched := s.matched.filter (fun e => e.1 ≠ f.hash),
                hashMap := s.hashMap.filter (fun e => e.1 ≠ f.hash) },
       some ("internal error: matched file group became empty for hash " ++ f.hash))
    else
      let upd := s.matched.map (fun e => if e.1 = f.hash then (e.1, g) else e)
      let s := if g.length = 1 then
          { s with matched := upd.filter (fun e => e.1 ≠ f.hash) }
        else { s with matched := upd }
      (setHash s f.hash (g.headD f), none)
  | none =>
    ({ s with hashMap := s.hashMap.filter (fun e => e.1 ≠ f.hash) }, none)

/-! ## Filesystem (the os.Root capability used by file.go)

A filesystem is the set of existing directory paths and existing
regular file paths (clean relative slash paths under the root).
OS error strings are environment dependent; the embedding uses fixed
descriptive messages, and no claim depends on their contents. -/

structure Fs where
  dirs : List String
  files : List String
deriving DecidableEq

def fsExists (fs : Fs) (p : String) : Bool :=
  fs.dirs.contains p || fs.files.contains p

def pathUnder (root q : String) : Bool :=
  q = root || goHasPrefix (root ++ "/") q

/-- root.Rename: src must exist and the parent of dst must be a
directory; renaming a file overwrites an existing file at dst,
renaming a directory requires dst to be absent and carries the whole
subtree. -/
def fsRename (fs : Fs) (src dst : String) : Except String Fs :=
  if fs.files.contains src then
    if fs.dirs.contains (goDir dst) then
      Except.ok { fs with files := (fs.files.filter (fun q => q ≠ src ∧ q ≠ dst)) ++ [dst] }
    else Except.error ("rename " ++ src ++ " " ++ dst ++ ": no such file or directory")
  else if fs.dirs.contains src then
    if fsExists fs dst then
      Except.error ("rename " ++ src ++ " " ++ dst ++ ": file exists")
    else if fs.dirs.contains (goDir dst) then
      let move := fun q => if q = src then dst
        else if goHasPrefix (src ++ "/") q then
          dst ++ "/" ++ String.mk (q.data.drop (src.data.length + 1))
        else q
      Except.ok { dirs := fs.dirs.map move, files := fs.files.map move }
    else Except.error ("rename " ++ src ++ " " ++ dst ++ ": no such file or directory")
  else Except.error ("rename " ++ src ++ " " ++ dst ++ ": no such file or directory")

/-- root.Remove: removes a file or an empty directory. -/
def fsRemove (fs : Fs) (p : String) : Except String Fs :=
  if fs.files.contains p then
    Except.ok { fs with files := fs.files.filter (fun q => q ≠ p) }
  else if fs.dirs.contains p then
    if (fs.files ++ fs.dirs).any (fun q => q ≠ p ∧ pathUnder p q) then
      Except.error ("remove " ++ p ++ ": directory not empty")
    else Except.ok { fs with dirs := fs.dirs.filter (fun q => q ≠ p) }
  else Except.error ("remove " ++ p ++ ": no such file or directory")

/-- root.RemoveAll: removes the path and everything under it, never
failing on absence. -/
def fsRemoveAll (fs : Fs) (p : String) : Fs :=
  { dirs := fs.dirs.filter (fun q => ¬ pathUnder p q),
    files := fs.files.filter (fun q => ¬ pathUnder p q) }

/-- The directory entries Readdir returns for p (never "." or "..";
the Go loop skips are kept in the emptiness predicate anyway). -/
def childEntries (fs : Fs) (p : String) : List (String × Bool) :=
  (fs.files.filter (fun q => goDir q = p)).map (fun q => (goBase q, false)) ++
    (fs.dirs.filter (fun q => goDir q = p)).map (fun q => (goBase q, true))

/-! ## File actions (src/core/file.go) -/

inductive GoErr where
  | notEmptyFolder
  | other (msg : String)
deriving DecidableEq

def errMsg : GoErr → String
  | GoErr.notEmptyFolder => "folder is not empty"
  | GoErr.other m => m

/-- The emptiness loop of RemoveEmptyFolder: an entry is harmless iff
it is "." or ".." or a non-directory whose name starts with ".". -/
def entriesEmpty (es : List (String × Bool)) : Bool :=
  es.all (fun e => e.1 = "." || e.1 = ".." || (!e.2 && hasDotPrefix e.1))

/-- RemoveEmptyFolder (file.go). -/
def RemoveEmptyFolder (fs : Fs) (path : String) : Except GoErr Fs :=
  if ¬ fs.dirs.contains path then
    Except.error (GoErr.other ("failed to open dir " ++ path))
  else if ¬ entriesEmpty (childEntries fs path) then
    Except.error GoErr.notEmptyFolder
  else
    Except.ok (fsRemoveAll fs path)

inductive FileAction where
  | move
  | delete
  | moveFolder
  | deleteFolder
  | deleteEmptyFolder
deriving DecidableEq

/-- FileActionTask; File, Folder and TargetFolder are pointers in Go
and are embedded as options (folders are identified by path, the Name
field of a stored folder being goBase of its path). -/
structure FileActionTask where
  action : FileAction
  file : Option StFile
  folder : Option String
  targetFolder : Option String
  targetName : String
  notDuplicate : Bool
deriving DecidableEq

/-- FileActionTask.String. -/
def taskString (t : FileActionTask) : String :=
  match t.action with
  | FileAction.move =>
    let targetName := if t.targetName = "" then ((t.file.map StFile.name).getD "") else t.targetName
    "move " ++ ((t.file.map StFile.path).getD "") ++ " to " ++
      goJoin ((t.targetFolder).getD "") targetName
  | FileAction.delete => "delete " ++ ((t.file.map StFile.path).getD "")
  | FileAction.moveFolder =>
    "move folder " ++ (t.folder.getD "") ++ " to " ++ ((t.targetFolder).getD "")
  | FileAction.deleteFolder => "Delete folder: " ++ (t.folder.getD "")
  | FileAction.deleteEmptyFolder => "Delete empty folder: " ++ (t.folder.getD "")

structure StepRes where
  st : MemStorage
  fs : Fs
  err : Option GoErr
deriving DecidableEq

/-- ExecuteFileActionTask (file.go).  none models a Go panic
(dereference of a nil task.File); every task the planner emits carries
the pointers its action reads. -/
def ExecuteFileActionTask (st : MemStorage) (fs : Fs) (t : FileActionTask) :
    Option StepRes :=
  match t.action with
  | FileAction.move =>
    match t.file, t.targetFolder with
    | some f, some target =>
      let exists0 := fsExists fs (goJoin target t.targetName)
      let targetName := if t.targetName = "" then f.name else t.targetName
      match fsRename fs f.path (goJoin target targetName) with
      | Except.error e => some ⟨st, fs, some (GoErr.other e)⟩
      | Except.ok fs2 =>
        match RemoveFile st f with
        | (st2, some e) => some ⟨st2, fs2, some (GoErr.other e)⟩
        | (st2, none) =>
          if exists0 then some ⟨st2, fs2, none⟩
          else
            some ⟨AddFile st2
              { path := goJoin target targetName, hash := f.hash, size := f.size,
                modTime := f.modTime, name := targetName }, fs2, none⟩
    | _, _ => none
  | FileAction.delete =>
    match t.file with
    | some f =>
      match fsRemove fs f.path with
      | Except.error e => some ⟨st, fs, some (GoErr.other e)⟩
      | Except.ok fs2 =>
        match RemoveFile st f with
        | (st2, e) => some ⟨st2, fs2, e.map GoErr.other⟩
    | none => none
  | FileAction.moveFolder =>
    match t.folder with
    | none => some ⟨st, fs, some (GoErr.other "folder is nil")⟩
    | some p =>
      match t.targetFolder with
      | none => none
      | some target =>
        let targetPath := goJoin target (goBase p)
        if fsExists fs targetPath then
          some ⟨st, fs, some (GoErr.other ("target folder " ++ targetPath ++ " already exists"))⟩
        else
          match fsRename fs p targetPath with
          | Except.error e => some ⟨st, fs, some (GoErr.other e)⟩
          | Except.ok fs2 => some ⟨st, fs2, none⟩
  | FileAction.deleteFolder =>
    match t.folder with
    | none => some ⟨st, fs, some (GoErr.other "folder is nil")⟩
    | some p =>
      match fsRemove fs p with
      | Except.error e => some ⟨st, fs, some (GoErr.other e)⟩
      | Except.ok fs2 => some ⟨st, fs2, none⟩
  | FileAction.deleteEmptyFolder =>
    match t.folder with
    | none => some ⟨st, fs, some (GoErr.other "folder is nil")⟩
    | some p =>
      match RemoveEmptyFolder fs p with
      | Except.error e => some ⟨st, fs, some e⟩
      | Except.ok fs2 => some ⟨st, fs2, none⟩

/-! ## Executor (executor.go)

The progress channel has capacity 10 and the send is non blocking: a
record is dropped when the buffer is full.  The concurrent consumer is
modelled by a schedule: before the i-th send it takes sched i records
off the front of the buffer.  received collects every record that was
accepted into the channel, in FIFO order; panicked marks a Go panic
inside a task (nil dereference), after which nothing further runs.
Cancellation is not modelled: the claims below quantify over runs
without cancellation, and the ctx.Done branch is never taken in such a
run.  The 10 ms pacing sleep has no observable effect. -/

structure ProgressUpdate where
  current : Nat
  total : Nat
  message : String
deriving DecidableEq

def chanCap : Nat := 10

structure ChanState where
  buf : List ProgressUpdate
  sched : List Nat
deriving DecidableEq

/-- One non-blocking send: the consumer first takes its scheduled
number of records, then the record enters iff the buffer has room. -/
def chanSend (c : ChanState) (u : ProgressUpdate) : ChanState × Bool :=
  let buf := c.buf.drop (c.sched.headD 0)
  if buf.length < chanCap then ({ buf := buf ++ [u], sched := c.sched.tail }, true)
  else ({ buf := buf, sched := c.sched.tail }, false)

structure RunOut where
  emitted : List ProgressUpdate
  received : List ProgressUpdate
  logs : List (Bool × String)
  err : Option GoErr
  panicked : Bool
  st : MemStorage
  fs : Fs

/-- The task loop of Executor.Execute; idx counts completed tasks,
total is the planned task count.  Log entries are (isError, message)
pairs matching the logger.Error and logger.Info calls. -/
def runAux (st : MemStorage) (fs : Fs) (c : ChanState) (idx total : Nat) :
    List FileActionTask → RunOut
  | [] => ⟨[], [], [], none, false, st, fs⟩
  | t :: ts =>
    match ExecuteFileActionTask st fs t with
    | none => ⟨[], [], [], none, true, st, fs⟩
    | some r =>
      let message := taskString t
      let absorbed := r.err = some GoErr.notEmptyFolder
      let message := if absorbed then message ++ " (folder is not empty)" else message
      let err := if absorbed then none else r.err
      let u : ProgressUpdate := ⟨idx + 1, total, message⟩
      let send := chanSend c u
      let logEntry : Bool × String :=
        match err with
        | some e => (true, errMsg e)
        | none => (false, "Executed task: " ++ message)
      match err with
      | some e => ⟨[u], if send.2 then [u] else [], [logEntry], some e, false, r.st, r.fs⟩
      | none =>
        let rest := runAux r.st r.fs send.1 (idx + 1) total ts
        ⟨u :: rest.emitted, (if send.2 then [u] else []) ++ rest.received,
          logEntry :: rest.logs, rest.err, rest.panicked, rest.st, rest.fs⟩

/-- Executor.Execute on a task list, with a fresh channel and a given
consumer schedule. -/
def Execute (st : MemStorage) (fs : Fs) (sched : List Nat)
    (tasks : List FileActionTask) : RunOut :=
  runAux st fs ⟨[], sched⟩ 0 tasks.length tasks

/-! ## Scanner (Scanner.Scan in executor.go)

The scanned subtree is a rose tree (mutual node/forest inductive so
that structural induction is available).  fs.WalkDir visits a
directory and then recurses into it in lexical entry order; returning
nil from the callback never prunes, only fs.SkipDir would.  For every
regular file the scanner opens and stats it and computes the
fingerprint; the content fingerprint, size and modification time are
oracles indexed by path, and the embedding returns the list of File
records passed to Storage.AddFile in walk order. -/

mutual
inductive FsNode where
  | file (name : String)
  | dir (name : String) (children : FsForest)
inductive FsForest where
  | nil
  | cons (hd : FsNode) (tl : FsForest)
end

structure ScanOracle where
  hashOf : String → String
  sizeOf : String → Int
  modTimeOf : String → Nat

mutual
/-- The WalkDir callback applied at one entry: a directory is skipped
(d.IsDir) but descended into; a file is added unless its own basename
starts with "." (d.Name()[0] == '.'). -/
def scanNode (o : ScanOracle) (pre : String) : FsNode → List StFile
  | FsNode.file n =>
    if hasDotPrefix n then []
    else
      let p := goJoin pre n
      [{ name := n, path := p, hash := o.hashOf p, size := o.sizeOf p, modTime := o.modTimeOf p }]
  | FsNode.dir n cs => scanForest o (goJoin pre n) cs
def scanForest (o : ScanOracle) (pre : String) : FsForest → List StFile
  | FsForest.nil => []
  | FsForest.cons t ts => scanNode o pre t ++ scanForest o pre ts
end

/-- Scanner.Scan over one root: WalkDir starts at ".", whose callback
returns nil (it is a directory), then walks the children. -/
def Scan (o : ScanOracle) (root : FsForest) : List StFile :=
  scanForest o "." root

mutual
/-- Every regular file of the tree, with the same record construction
and walk order as the scanner. -/
def allNode (o : ScanOracle) (pre : String) : FsNode → List StFile
  | FsNode.file n =>
    let p := goJoin pre n
    [{ name := n, path := p, hash := o.hashOf p, size := o.sizeOf p, modTime := o.modTimeOf p }]
  | FsNode.dir n cs => allForest o (goJoin pre n) cs
def allForest (o : ScanOracle) (pre : String) : FsForest → List StFile
  | FsForest.nil => []
  | FsForest.cons t ts => allNode o pre t ++ allForest o pre ts
end

/-! ## Concrete scenarios used by the theorems below -/

/-- Recursive file counts for the S2 ancestor-propagation tree
./p/a/x, ./q/b/x, ./p/a/y, ./q/b/y. -/
def s2Fc : String → Nat := fun p => if p = "." then 4 else 2

/-- The matched groups Storage yields for the S2 tree: x duplicated
across p/a and q/b, and y likewise. -/
def s2Groups : List (List GFile) :=
  [[⟨"x", "p/a"⟩, ⟨"x", "q/b"⟩], [⟨"y", "p/a"⟩, ⟨"y", "q/b"⟩]]

/-- A matched group over a folder whose path contains the pair-key
separator ":". -/
def colonGroups : List (List GFile) := [[⟨"x", "a:b"⟩, ⟨"x", "c"⟩]]

/-- The file a/x about to be moved into folder b. -/
def c2File : StFile := ⟨"x", "a/x", "h1", 5, 7⟩

def c2Storage : MemStorage :=
  { folders := [(".", ⟨".", ".", ["a", "b"], [], 0⟩),
                ("a", ⟨"a", "a", [], [c2File], 1⟩),
                ("b", ⟨"b", "b", [], [], 0⟩)],
    matched := [],
    hashMap := [("h1", c2File)] }

def c2Fs : Fs := ⟨[".", "a", "b"], ["a/x"]⟩

/-- A Move task as the planner emits it (MergeFolderPair.GetActionTask
ActionMoveToRight and MergeFilePair.GetActionTask with File2 == nil
both leave TargetName empty). -/
def c2Task : FileActionTask :=
  ⟨FileAction.move, some c2File, none, some "b", "", false⟩

def emptyFolderRec : FolderRec := ⟨"", "", [], [], 0⟩

/-- A storage whose folder a exists but holds no file named x. -/
def c3Storage : MemStorage :=
  { folders := [(".", ⟨".", ".", ["a"], [], 0⟩), ("a", ⟨"a", "a", [], [], 0⟩)],
    matched := [], hashMap := [] }

def c3File : StFile := ⟨"x", "a/x", "h9", 1, 1⟩

def stEmpty : MemStorage := ⟨[], [], []⟩

def mkDeleteEmpty (p : String) : FileActionTask :=
  ⟨FileAction.deleteEmptyFolder, none, some p, none, "", false⟩

/-- Eleven tasks: one more than the channel capacity. -/
def c5Tasks : List FileActionTask :=
  [mkDeleteEmpty "a", mkDeleteEmpty "b", mkDeleteEmpty "c", mkDeleteEmpty "d",
   mkDeleteEmpty "e", mkDeleteEmpty "f", mkDeleteEmpty "g", mkDeleteEmpty "h",
   mkDeleteEmpty "i", mkDeleteEmpty "j", mkDeleteEmpty "k"]

/-- Eleven empty sibling folders under the root. -/
def c5FsK : Fs := ⟨[".", "a", "b", "c", "d", "e", "f", "g", "h", "i", "j", "k"], []⟩

/-- A folder a that contains a regular (non hidden) file. -/
def c6Fs : Fs := ⟨[".", "a"], ["a/data.bin"]⟩

def c6NotEmptyTask : FileActionTask :=
  ⟨FileAction.deleteEmptyFolder, none, some "a", none, "", false⟩

/-- A DeleteFolder task with a nil Folder pointer: its error is the
program generated "folder is nil". -/
def c6NilTask : FileActionTask :=
  ⟨FileAction.deleteFolder, none, none, none, "", false⟩

/-- A folder a that contains only the hidden file .DS_Store. -/
def c7FsHidden : Fs := ⟨[".", "a"], ["a/.DS_Store"]⟩

/-- The same folder with a subdirectory added. -/
def c7FsSub : Fs := ⟨[".", "a", "a/sub"], ["a/.DS_Store"]⟩

/-- A tree with a file inside a dot-prefixed directory. -/
def c9Tree : FsForest :=
  FsForest.cons (FsNode.dir ".git" (FsForest.cons (FsNode.file "config") FsForest.nil))
    (FsForest.cons (FsNode.file "readme") FsForest.nil)

def c9Oracle : ScanOracle := ⟨fun p => "hash-" ++ p, fun _ => 1, fun _ => 0⟩

/-! ## Derived views used by the similarity theorems -/

/-- The DuplicateFiles key list of the side of pair k oriented to
path p (empty when the pair is absent). -/
def sideNamesAt (m : PairMap) (k p : String) : List String :=
  match alookup m k with
  | some pr => (orientPair pr p).1.dupFiles
  | none => []

/-- The DuplicateFileCount of the side of pair k oriented to path p. -/
def sideCountAt (m : PairMap) (k p : String) : Nat :=
  match alookup m k with
  | some pr => (orientPair pr p).1.dupCount
  | none => 0

/-- The distinct-basename duplicates folder A shares with folder B
inside one matched group: the basenames of the files of A in a group
that also contains a file of B. -/
def sharedInGroup (g : List GFile) (A B : String) : List String :=
  if g.any (fun f => f.parent = B) then (g.filter (fun f => f.parent = A)).map GFile.name
  else []

/-- All distinct-basename duplicates folder A shares with folder B
over the matched groups. -/
def sharedDupNames (groups : List (List GFile)) (A B : String) : List String :=
  groups.flatMap (fun g => sharedInGroup g A B)

/-- Properties shared by every side update CalculateSimilarity ever
applies (addName, addCount and their guarded forms): the folder path
is untouched, DuplicateFiles only grows, the count stays at least the
key-list length, and the key list stays duplicate free. -/
def goodSide (f : Side → Side) : Prop :=
  (∀ s, (f s).path = s.path) ∧
  (∀ s, s.dupFiles ⊆ (f s).dupFiles) ∧
  (∀ s, s.dupFiles.length ≤ s.dupCount → (f s).dupFiles.length ≤ (f s).dupCount) ∧
  (∀ s, s.dupFiles.Nodup → (f s).dupFiles.Nodup)

/-- Every entry of the pair map is stored under the canonical key of
its two side paths. -/
def pairKeyInv (m : PairMap) : Prop :=
  ∀ e ∈ m, e.1 = folderPairKey e.2.1.path e.2.2.path

/-- Each side counts at least its distinct recorded basenames. -/
def pairCountInv (m : PairMap) : Prop :=
  ∀ e ∈ m, e.2.1.dupFiles.length ≤ e.2.1.dupCount ∧
    e.2.2.dupFiles.length ≤ e.2.2.dupCount

/-- Recorded basenames are duplicate free on each side. -/
def pairNodupInv (m : PairMap) : Prop :=
  ∀ e ∈ m, e.2.1.dupFiles.Nodup ∧ e.2.2.dupFiles.Nodup

/-! ## Theorems -/

/-! ### Order lemmas for the Go string comparison -/

theorem charListLt_asymm :
    ∀ a b : List Char, charListLt a b = true → charListLt b a = false := by
  intro a
  induction a with
  | nil =>
    intro b h
    cases b with
    | nil => simp [charListLt] at h
    | cons y ys => simp [charListLt]
  | cons x xs ih =>
    intro b h
    cases b with
    | nil => simp [charListLt] at h
    | cons y ys =>
      simp only [charListLt] at h ⊢
      by_cases hxy : x < y
      · have hyx : ¬ y < x := lt_asymm hxy
        simp [hxy, hyx]
      · by_cases hyx : y < x
        · simp [hxy, hyx] at h
        · simp only [if_neg hxy, if_neg hyx] at h ⊢
          exact ih ys h

theorem charListLt_antisymm :
    ∀ a b : List Char, charListLt a b = false → charListLt b a = false → a = b := by
  intro a
  induction a with
  | nil =>
    intro b h1 h2
    cases b with
    | nil => rfl
    | cons y ys => simp [charListLt] at h1
  | cons x xs ih =>
    intro b h1 h2
    cases b with
    | nil => simp [charListLt] at h2
    | cons y ys =>
      simp only [charListLt] at h1 h2
      by_cases hxy : x < y
      · simp [hxy] at h1
      · by_cases hyx : y < x
        · simp [hyx, hxy] at h2
        · have hx : x = y := le_antisymm (not_lt.mp hyx) (not_lt.mp hxy)
          simp only [if_neg hxy, if_neg hyx] at h1 h2
          rw [hx, ih ys h1 h2]

theorem charListLt_ge_trans :
    ∀ a b c : List Char, charListLt b a = false → charListLt c b = false →
      charListLt c a = false := by
  intro a
  induction a with
  | nil =>
    intro b c h1 h2
    cases c with
    | nil => simp [charListLt]
    | cons z zs => simp [charListLt]
  | cons x xs ih =>
    intro b c h1 h2
    cases b with
    | nil => simp [charListLt] at h1
    | cons y ys =>
      cases c with
      | nil => simp [charListLt] at h2
      | cons z zs =>
        simp only [charListLt] at h1 h2 ⊢
        by_cases hyx : y < x
        · simp [hyx] at h1
        · by_cases hzy : z < y
          · simp [hzy] at h2
          · have hxy : x ≤ y := not_lt.mp hyx
            have hyz : y ≤ z := not_lt.mp hzy
            have hzx : ¬ z < x := not_lt.mpr (le_trans hxy hyz)
            simp only [if_neg hyx] at h1
            simp only [if_neg hzy] at h2
            simp only [if_neg hzx]
            by_cases hxz : x < z
            · simp [hxz]
            · have hyx2 : y ≤ x := le_trans hyz (not_lt.mp hxz)
              have hzy2 : z ≤ y := le_trans (not_lt.mp hxz) hxy
              have hxy3 : ¬ x < y := not_lt.mpr hyx2
              have hyz3 : ¬ y < z := not_lt.mpr hzy2
              simp only [if_neg hxz]
              simp only [if_neg hxy3] at h1
              simp only [if_neg hyz3] at h2
              exact ih ys zs h1 h2

theorem stringEqOfData {a b : String} (h : a.data = b.data) : a = b := by
  cases a; cases b; exact congrArg String.mk h

instance : IsTotal HFile hashLE := by
  refine ⟨fun a b => ?_⟩
  by_cases h : goStrLt b.hash a.hash = false
  · exact Or.inl h
  · refine Or.inr ?_
    have ht : charListLt b.hash.data a.hash.data = true := by
      revert h; unfold goStrLt; cases charListLt b.hash.data a.hash.data <;> simp
    exact charListLt_asymm _ _ ht

instance : IsTrans HFile hashLE := by
  refine ⟨fun a b c h1 h2 => ?_⟩
  exact charListLt_ge_trans a.hash.data b.hash.data c.hash.data h1 h2

theorem folderPairKey_comm (a b : String) : folderPairKey a b = folderPairKey b a := by
  unfold folderPairKey
  by_cases hba : goStrLt b a = true
  · have hab : goStrLt a b = false := charListLt_asymm _ _ hba
    simp [hba, hab]
  · have hba2 : goStrLt b a = false := by
      revert hba; cases goStrLt b a <;> simp
    by_cases hab : goStrLt a b = true
    · simp [hba2, hab]
    · have hab2 : goStrLt a b = false := by
        revert hab; cases goStrLt a b <;> simp
      have hq : a = b := stringEqOfData (charListLt_antisymm _ _ hab2 hba2)
      simp [hq, hab2, hba2]

/-- C8: for any two folder paths a and b the canonical pair key is
symmetric, and the oriented accessor getFolderSimilarity returns the
stored sides as (side of a, side of b) whichever order they were
stored in. -/
theorem C8_pair_canonicalization :
    (∀ a b : String, folderPairKey a b = folderPairKey b a) ∧
    (∀ (m : PairMap) (a b : String) (s0 s1 : Side),
      alookup m (folderPairKey a b) = some (s0, s1) →
      (s0.path = a ∧ s1.path = b) ∨ (s0.path = b ∧ s1.path = a) →
      ∃ pr : FolderPair, getFolderSimilarity a b m = Except.ok pr ∧
        pr.1.path = a ∧ pr.2.path = b) := by
  constructor
  · exact folderPairKey_comm
  · intro m a b s0 s1 hlk hsides
    unfold getFolderSimilarity
    rw [hlk]
    unfold orientPair
    by_cases h0 : s0.path = a
    · refine ⟨(s0, s1), by simp [h0], h0, ?_⟩
      rcases hsides with ⟨_, hb⟩ | ⟨hb0, hb1⟩
      · exact hb
      · rw [hb1, ← h0, hb0]
    · rcases hsides with ⟨ha0, _⟩ | ⟨hb0, hb1⟩
      · exact absurd ha0 h0
      · exact ⟨(s1, s0), by simp [h0], hb1, hb0⟩

theorem C8_witness :
    folderPairKey "q/b" "p/a" = folderPairKey "p/a" "q/b" ∧
    ∃ pr : FolderPair,
      getFolderSimilarity "q/b" "p/a"
        [("p/a:q/b", (⟨"p/a", 2, ["x"], 1⟩, ⟨"q/b", 2, ["x"], 1⟩))] = Except.ok pr ∧
      pr.1.path = "q/b" ∧ pr.2.path = "p/a" :=
  ⟨C8_pair_canonicalization.1 "q/b" "p/a",
   C8_pair_canonicalization.2 _ "q/b" "p/a" ⟨"p/a", 2, ["x"], 1⟩ ⟨"q/b", 2, ["x"], 1⟩
     (by decide) (Or.inr ⟨rfl, rfl⟩)⟩

/-- C7: RemoveEmptyFolder deems a folder empty iff, ignoring "." and
"..", every entry is a non-directory whose basename starts with ".";
an empty folder is removed with success, any subdirectory or
non-hidden file yields the NotEmptyFolder sentinel and the task leaves
the filesystem untouched. -/
theorem C7_delete_empty_folder_policy (fs : Fs) (p : String)
    (hdir : fs.dirs.contains p = true) :
    (entriesEmpty (childEntries fs p) = true ↔
      ∀ e ∈ childEntries fs p,
        e.1 = "." ∨ e.1 = ".." ∨ (e.2 = false ∧ hasDotPrefix e.1 = true)) ∧
    (entriesEmpty (childEntries fs p) = true →
      RemoveEmptyFolder fs p = Except.ok (fsRemoveAll fs p) ∧
        p ∉ (fsRemoveAll fs p).dirs) ∧
    (entriesEmpty (childEntries fs p) = false →
      ∀ st : MemStorage,
        ExecuteFileActionTask st fs
          ⟨FileAction.deleteEmptyFolder, none, some p, none, "", false⟩ =
          some ⟨st, fs, some GoErr.notEmptyFolder⟩) := by
  refine ⟨?_, ?_, ?_⟩
  · unfold entriesEmpty
    rw [List.all_eq_true]
    constructor
    · intro h e he
      have := h e he
      revert this
      by_cases h1 : e.1 = "." <;> by_cases h2 : e.1 = ".." <;>
        cases he2 : e.2 <;> simp [h1, h2, he2]
    · intro h e he
      rcases h e he with h1 | h2 | ⟨hb, hd⟩
      · simp [h1]
      · simp [h2]
      · simp [hb, hd]
  · intro he
    have hmem : p ∈ fs.dirs := by simpa using hdir
    constructor
    · unfold RemoveEmptyFolder
      simp [hmem, he]
    · intro hmem2
      have : pathUnder p p = true := by simp [pathUnder]
      simp only [fsRemoveAll, List.mem_filter] at hmem2
      rw [this] at hmem2
      simp at hmem2
  · intro hne st
    have hmem : p ∈ fs.dirs := by simpa using hdir
    unfold ExecuteFileActionTask RemoveEmptyFolder
    simp [hmem, hne]

theorem C7_witness :
    RemoveEmptyFolder c7FsHidden "a" = Except.ok (fsRemoveAll c7FsHidden "a") ∧
    ExecuteFileActionTask stEmpty c7FsSub
      ⟨FileAction.deleteEmptyFolder, none, some "a", none, "", false⟩ =
      some ⟨stEmpty, c7FsSub, some GoErr.notEmptyFolder⟩ :=
  ⟨((C7_delete_empty_folder_policy c7FsHidden "a" (by decide)).2.1 (by decide)).1,
   (C7_delete_empty_folder_policy c7FsSub "a" (by decide)).2.2 (by decide) stEmpty⟩

theorem getFolderAux_matched :
    ∀ (fuel : Nat) (s : MemStorage) (p : String),
      (getFolderAux fuel s p).matched = s.matched ∧
      (getFolderAux fuel s p).hashMap = s.hashMap := by
  intro fuel
  induction fuel with
  | zero =>
    intro s p
    unfold getFolderAux
    by_cases h1 : (alookup s.folders p).isSome <;>
      by_cases h2 : p = "." ∨ p = "/" <;> simp [h1, h2]
  | succ n ih =>
    intro s p
    unfold getFolderAux
    by_cases h1 : (alookup s.folders p).isSome <;>
      by_cases h2 : p = "." ∨ p = "/" <;> simp [h1, h2, updFolder, ih]

/-- C3 counterexample: a storage whose folder a exists but holds no
file named x; RemoveFile of a/x returns nil, not an error. -/
theorem C3_counterexample :
    (alookup c3Storage.folders "a").map (fun fr => fr.files.any (fun g => g.name = "x")) =
      some false ∧
    (RemoveFile c3Storage c3File).2 = none := by decide

/-- C3 amended: RemoveFile returns an error exactly when the matched
group stored for the fingerprint of the file becomes empty after
erasing the file (the internal invariant violation); removing a file
whose basename is not stored in its parent folder is silently ignored,
and a missing parent folder is created, never an error. -/
theorem C3_remove_file_error_iff (s : MemStorage) (f : StFile) :
    ((RemoveFile s f).2).isSome = true ↔
      ∃ g, alookup s.matched f.hash = some g ∧ g.filter (fun x => x ≠ f) = [] := by
  unfold RemoveFile
  have hm1 : (folderRemoveFile (GetFolder s (goDir f.path)) (goDir f.path) f).matched
      = s.matched := by
    simp [folderRemoveFile, updFolder, GetFolder, (getFolderAux_matched _ _ _).1]
  dsimp only
  rw [hm1]
  cases hm : alookup s.matched f.hash with
  | none => simp
  | some g =>
    dsimp only
    by_cases hg : (List.filter (fun x => decide (x ≠ f)) g).length = 0
    · rw [if_pos hg]
      simp only [Option.isSome_some, true_iff]
      exact ⟨g, rfl, List.length_eq_zero.mp hg⟩
    · rw [if_neg hg]
      dsimp only
      constructor
      · intro h; simp at h
      · rintro ⟨g2, hg2, hfil⟩
        cases hg2
        exact (hg (by rw [hfil]; rfl)).elim

/-- C2 (code slip in ExecuteFileActionTask Move): the existence check
opens Join(TargetFolder.Path, TargetName) with the raw TargetName,
while the rename uses the defaulted name.  With the empty TargetName
the planner emits, the check opens the target folder itself, exists
is true, and although the destination b/x did not exist before the
rename, no Storage record is inserted for it: the rename fires and
succeeds, yet folder b stays empty in Storage and the hash map loses
the fingerprint. -/
theorem C2_move_skips_destination_record :
    fsExists c2Fs "b/x" = false ∧
    (ExecuteFileActionTask c2Storage c2Fs c2Task).map (fun r => (r.fs.files, r.err)) =
      some (["b/x"], none) ∧
    (ExecuteFileActionTask c2Storage c2Fs c2Task).map
      (fun r => ((alookupD r.st.folders "b" emptyFolderRec).files, r.st.hashMap, r.st.matched)) =
      some ([], [], []) := by decide

theorem scanForest_filter (o : ScanOracle) (fo : FsForest) :
    ∀ pre, scanForest o pre fo =
      (allForest o pre fo).filter (fun f => !hasDotPrefix f.name) :=
  @FsForest.rec
    (fun t => ∀ pre, scanNode o pre t =
      (allNode o pre t).filter (fun f => !hasDotPrefix f.name))
    (fun fo2 => ∀ pre, scanForest o pre fo2 =
      (allForest o pre fo2).filter (fun f => !hasDotPrefix f.name))
    (fun n pre => by
      simp only [scanNode, allNode]
      cases h : hasDotPrefix n <;> simp [h])
    (fun n cs ih pre => by
      simp only [scanNode, allNode]
      exact ih _)
    (fun pre => by simp [scanForest, allForest])
    (fun hd tl ih1 ih2 pre => by
      simp only [scanForest, allForest, List.filter_append]
      rw [ih1 pre, ih2 pre])
    fo

/-- C9: the scanner skips an entry exactly when it is a directory or
its own basename starts with "."; dot-prefixed directories are still
descended into, so Scan adds to Storage exactly the regular files of
the tree whose own basename is not hidden, including files inside
hidden directories such as .git/config. -/
theorem C9_scanner_skips_only_hidden_basenames :
    (∀ (o : ScanOracle) (root : FsForest),
      Scan o root = (allForest o "." root).filter (fun f => !hasDotPrefix f.name)) ∧
    (Scan c9Oracle c9Tree).map StFile.path = [".git/config", "readme"] := by
  constructor
  · intro o root
    exact scanForest_filter o root "."
  · decide

theorem matchMerge_length :
    ∀ (n : Nat) (l1 l2 : List HFile), l1.length + l2.length ≤ n →
      2 * (matchMerge l1 l2).1.length + (matchMerge l1 l2).2.1.length +
        (matchMerge l1 l2).2.2.length = l1.length + l2.length := by
  intro n
  induction n with
  | zero =>
    intro l1 l2 h
    match l1, l2 with
    | [], [] => simp [matchMerge]
    | a :: as, _ => simp at h
    | [], b :: bs => simp at h
  | succ n ih =>
    intro l1 l2 h
    match l1, l2 with
    | [], bs => simp [matchMerge]
    | a :: as, [] =>
      have hr := ih as [] (by simp at h ⊢; omega)
      simp only [matchMerge]
      simp at hr ⊢
      omega
    | a :: as, b :: bs =>
      by_cases heq : a.hash = b.hash
      · have hr := ih as bs (by simp at h ⊢; omega)
        simp only [matchMerge, if_pos heq]
        simp at hr ⊢
        omega
      · by_cases hlt : a.hash < b.hash
        · have hr := ih as (b :: bs) (by simp at h ⊢; omega)
          simp only [matchMerge, if_neg heq, if_pos hlt]
          simp at hr ⊢
          omega
        · have hr := ih (a :: as) bs (by simp at h ⊢; omega)
          simp only [matchMerge, if_neg heq, if_neg hlt]
          simp at hr ⊢
          omega

theorem matchMerge_perm :
    ∀ (n : Nat) (l1 l2 : List HFile), l1.length + l2.length ≤ n →
      ((matchMerge l1 l2).1.map Prod.fst ++ (matchMerge l1 l2).2.1).Perm l1 ∧
      ((matchMerge l1 l2).1.map Prod.snd ++ (matchMerge l1 l2).2.2).Perm l2 := by
  intro n
  induction n with
  | zero =>
    intro l1 l2 h
    match l1, l2 with
    | [], [] => simp [matchMerge]
    | a :: as, _ => simp at h
    | [], b :: bs => simp at h
  | succ n ih =>
    intro l1 l2 h
    match l1, l2 with
    | [], bs => simp [matchMerge]
    | a :: as, [] =>
      have hr := ih as [] (by simp at h ⊢; omega)
      simp only [matchMerge]
      refine ⟨?_, by simpa using hr.2⟩
      exact List.perm_middle.trans (hr.1.cons a)
    | a :: as, b :: bs =>
      by_cases heq : a.hash = b.hash
      · have hr := ih as bs (by simp at h ⊢; omega)
        simp only [matchMerge, if_pos heq, List.map_cons, List.cons_append]
        exact ⟨hr.1.cons a, hr.2.cons b⟩
      · by_cases hlt : a.hash < b.hash
        · have hr := ih as (b :: bs) (by simp at h ⊢; omega)
          simp only [matchMerge, if_neg heq, if_pos hlt]
          exact ⟨List.perm_middle.trans (hr.1.cons a), hr.2⟩
        · have hr := ih (a :: as) bs (by simp at h ⊢; omega)
          simp only [matchMerge, if_neg heq, if_neg hlt]
          exact ⟨hr.1, List.perm_middle.trans (hr.2.cons b)⟩

theorem matchMerge_hashes :
    ∀ (n : Nat) (l1 l2 : List HFile), l1.length + l2.length ≤ n →
      ∀ pr ∈ (matchMerge l1 l2).1, pr.1.hash = pr.2.hash := by
  intro n
  induction n with
  | zero =>
    intro l1 l2 h
    match l1, l2 with
    | [], [] => simp [matchMerge]
    | a :: as, _ => simp at h
    | [], b :: bs => simp at h
  | succ n ih =>
    intro l1 l2 h
    match l1, l2 with
    | [], bs => simp [matchMerge]
    | a :: as, [] =>
      have hr := ih as [] (by simp at h ⊢; omega)
      simpa [matchMerge] using hr
    | a :: as, b :: bs =>
      by_cases heq : a.hash = b.hash
      · have hr := ih as bs (by simp at h ⊢; omega)
        simp only [matchMerge, if_pos heq]
        intro pr hpr
        rcases List.mem_cons.mp hpr with h1 | h2
        · rw [h1]; exact heq
        · exact hr pr h2
      · by_cases hlt : a.hash < b.hash
        · have hr := ih as (b :: bs) (by simp at h ⊢; omega)
          simp only [matchMerge, if_neg heq, if_pos hlt]
          exact hr
        · have hr := ih (a :: as) bs (by simp at h ⊢; omega)
          simp only [matchMerge, if_neg heq, if_neg hlt]
          exact hr

theorem matchMerge_sorted :
    ∀ (n : Nat) (l1 l2 : List HFile), l1.length + l2.length ≤ n →
      l1.Pairwise hashLE → l2.Pairwise hashLE →
      ((matchMerge l1 l2).1.map Prod.fst).Pairwise hashLE ∧
      (matchMerge l1 l2).2.1.Pairwise hashLE ∧
      (matchMerge l1 l2).2.2.Pairwise hashLE := by
  intro n
  induction n with
  | zero =>
    intro l1 l2 h hs1 hs2
    match l1, l2 with
    | [], [] => simp [matchMerge]
    | a :: as, _ => simp at h
    | [], b :: bs => simp at h
  | succ n ih =>
    intro l1 l2 h hs1 hs2
    match l1, l2 with
    | [], bs => simpa [matchMerge] using hs2
    | a :: as, [] =>
      have hlen : as.length + ([] : List HFile).length ≤ n := by simp at h ⊢; omega
      have hr := ih as [] hlen (List.pairwise_cons.mp hs1).2 List.Pairwise.nil
      have hperm := matchMerge_perm (as.length + ([] : List HFile).length) as [] le_rfl
      have hha : ∀ x ∈ as, hashLE a x := (List.pairwise_cons.mp hs1).1
      simp only [matchMerge]
      refine ⟨hr.1, List.pairwise_cons.mpr ⟨?_, hr.2.1⟩, hr.2.2⟩
      intro x hx
      exact hha x (hperm.1.subset (List.mem_append_right _ hx))
    | a :: as, b :: bs =>
      have hta := (List.pairwise_cons.mp hs1).2
      have htb := (List.pairwise_cons.mp hs2).2
      have hha : ∀ x ∈ as, hashLE a x := (List.pairwise_cons.mp hs1).1
      have hhb : ∀ x ∈ bs, hashLE b x := (List.pairwise_cons.mp hs2).1
      by_cases heq : a.hash = b.hash
      · have hlen : as.length + bs.length ≤ n := by simp at h ⊢; omega
        have hr := ih as bs hlen hta htb
        have hperm := matchMerge_perm (as.length + bs.length) as bs le_rfl
        simp only [matchMerge, if_pos heq, List.map_cons]
        refine ⟨List.pairwise_cons.mpr ⟨?_, hr.1⟩, hr.2.1, hr.2.2⟩
        intro x hx
        exact hha x (hperm.1.subset (List.mem_append_left _ hx))
      · by_cases hlt : a.hash < b.hash
        · have hlen : as.length + (b :: bs).length ≤ n := by simp at h ⊢; omega
          have hr := ih as (b :: bs) hlen hta hs2
          have hperm := matchMerge_perm (as.length + (b :: bs).length) as (b :: bs) le_rfl
          simp only [matchMerge, if_neg heq, if_pos hlt]
          refine ⟨hr.1, List.pairwise_cons.mpr ⟨?_, hr.2.1⟩, hr.2.2⟩
          intro x hx
          exact hha x (hperm.1.subset (List.mem_append_right _ hx))
        · have hlen : (a :: as).length + bs.length ≤ n := by simp at h ⊢; omega
          have hr := ih (a :: as) bs hlen hs1 htb
          have hperm := matchMerge_perm ((a :: as).length + bs.length) (a :: as) bs le_rfl
          simp only [matchMerge, if_neg heq, if_neg hlt]
          refine ⟨hr.1, hr.2.1, List.pairwise_cons.mpr ⟨?_, hr.2.2⟩⟩
          intro x hx
          exact hhb x (hperm.2.subset (List.mem_append_right _ hx))

/-- C4: GetMatchedFilePairs partitions the two direct file lists:
the counting identity holds, every input file lands in exactly one
output list (the matched projections plus the one-side lists are
permutations of the inputs), matched pairs carry equal fingerprints,
and all three outputs are in ascending fingerprint order. -/
theorem C4_matched_file_pairs_partition (files1 files2 : List HFile) :
    2 * (GetMatchedFilePairs files1 files2).1.length +
        (GetMatchedFilePairs files1 files2).2.1.length +
        (GetMatchedFilePairs files1 files2).2.2.length =
      files1.length + files2.length ∧
    ((GetMatchedFilePairs files1 files2).1.map Prod.fst ++
        (GetMatchedFilePairs files1 files2).2.1).Perm files1 ∧
    ((GetMatchedFilePairs files1 files2).1.map Prod.snd ++
        (GetMatchedFilePairs files1 files2).2.2).Perm files2 ∧
    (∀ pr ∈ (GetMatchedFilePairs files1 files2).1, pr.1.hash = pr.2.hash) ∧
    ((GetMatchedFilePairs files1 files2).1.map Prod.fst).Pairwise hashLE ∧
    (GetMatchedFilePairs files1 files2).2.1.Pairwise hashLE ∧
    (GetMatchedFilePairs files1 files2).2.2.Pairwise hashLE := by
  unfold GetMatchedFilePairs
  have hp1 : (sortByHash files1).Perm files1 := List.perm_insertionSort hashLE files1
  have hp2 : (sortByHash files2).Perm files2 := List.perm_insertionSort hashLE files2
  have hs1 : (sortByHash files1).Pairwise hashLE := List.sorted_insertionSort hashLE files1
  have hs2 : (sortByHash files2).Pairwise hashLE := List.sorted_insertionSort hashLE files2
  have hlen := matchMerge_length ((sortByHash files1).length + (sortByHash files2).length)
    (sortByHash files1) (sortByHash files2) le_rfl
  have hperm := matchMerge_perm ((sortByHash files1).length + (sortByHash files2).length)
    (sortByHash files1) (sortByHash files2) le_rfl
  have hhash := matchMerge_hashes ((sortByHash files1).length + (sortByHash files2).length)
    (sortByHash files1) (sortByHash files2) le_rfl
  have hsort := matchMerge_sorted ((sortByHash files1).length + (sortByHash files2).length)
    (sortByHash files1) (sortByHash files2) le_rfl hs1 hs2
  refine ⟨?_, hperm.1.trans hp1, hperm.2.trans hp2, hhash, hsort.1, hsort.2.1, hsort.2.2⟩
  rw [hlen, hp1.length_eq, hp2.length_eq]

theorem runAux_spec :
    ∀ (ts : List FileActionTask) (st : MemStorage) (fs : Fs) (c : ChanState)
      (idx total : Nat),
      (runAux st fs c idx total ts).received.Sublist (runAux st fs c idx total ts).emitted ∧
      (runAux st fs c idx total ts).emitted.map ProgressUpdate.current =
        List.range' (idx + 1) (runAux st fs c idx total ts).emitted.length ∧
      (∀ u ∈ (runAux st fs c idx total ts).emitted, u.total = total) ∧
      ((runAux st fs c idx total ts).err = none →
        (runAux st fs c idx total ts).panicked = false →
        (runAux st fs c idx total ts).emitted.length = ts.length) := by
  intro ts
  induction ts with
  | nil =>
    intro st fs c idx total
    simp [runAux]
  | cons t ts ih =>
    intro st fs c idx total
    cases hstep : ExecuteFileActionTask st fs t with
    | none =>
      simp [runAux, hstep]
    | some r =>
      cases hre : r.err with
      | some e =>
        cases e with
        | notEmptyFolder =>
          have hrest := ih r.st r.fs (chanSend c
            ⟨idx + 1, total, taskString t ++ " (folder is not empty)"⟩).1 (idx + 1) total
          simp only [runAux, hstep, hre]
          simp only [reduceCtorEq, reduceIte, if_pos rfl]
          cases hsend : (chanSend c ⟨idx + 1, total, taskString t ++ " (folder is not empty)"⟩).2 with
          | true =>
            simp only [hsend, reduceIte, List.singleton_append]
            refine ⟨?_, ?_, ?_, ?_⟩
            · exact List.Sublist.cons₂ _ hrest.1
            · simp [List.range'_succ, hrest.2.1]
            · intro u hu
              rcases List.mem_cons.mp hu with h1 | h2
              · rw [h1]
              · exact hrest.2.2.1 u h2
            · intro he hp
              simp only [List.length_cons]
              rw [hrest.2.2.2 he hp]
          | false =>
            try simp only [hsend, reduceIte, List.nil_append]
            refine ⟨?_, ?_, ?_, ?_⟩
            · simpa using List.Sublist.cons _ hrest.1
            · simp [List.range'_succ, hrest.2.1]
            · intro u hu
              rcases List.mem_cons.mp hu with h1 | h2
              · rw [h1]
              · exact hrest.2.2.1 u h2
            · intro he hp
              simp only [List.length_cons]
              rw [hrest.2.2.2 he hp]
        | other m =>
          simp only [runAux, hstep, hre]
          try simp only [reduceCtorEq, reduceIte]
          refine ⟨?_, ?_, ?_, ?_⟩
          · cases hsend : (chanSend c ⟨idx + 1, total, taskString t⟩).2 <;> simp [hsend]
          · simp [List.range'_succ]
          · intro u hu
            rcases List.mem_cons.mp hu with h1 | h2
            · rw [h1]
            · simp at h2
          · intro he
            simp at he
      | none =>
        have hrest := ih r.st r.fs (chanSend c ⟨idx + 1, total, taskString t⟩).1 (idx + 1) total
        simp only [runAux, hstep, hre]
        simp only [reduceCtorEq, reduceIte]
        cases hsend : (chanSend c ⟨idx + 1, total, taskString t⟩).2 with
        | true =>
          simp only [hsend, reduceIte, List.singleton_append]
          refine ⟨?_, ?_, ?_, ?_⟩
          · exact List.Sublist.cons₂ _ hrest.1
          · simp [List.range'_succ, hrest.2.1]
          · intro u hu
            rcases List.mem_cons.mp hu with h1 | h2
            · rw [h1]
            · exact hrest.2.2.1 u h2
          · intro he hp
            simp only [List.length_cons]
            rw [hrest.2.2.2 he hp]
        | false =>
          try simp only [hsend, reduceIte, List.nil_append]
          refine ⟨?_, ?_, ?_, ?_⟩
          · simpa using List.Sublist.cons _ hrest.1
          · simp [List.range'_succ, hrest.2.1]
          · intro u hu
            rcases List.mem_cons.mp hu with h1 | h2
            · rw [h1]
            · exact hrest.2.2.1 u h2
          · intro he hp
            simp only [List.length_cons]
            rw [hrest.2.2.2 he hp]

set_option maxHeartbeats 1000000 in
/-- C5 counterexample: eleven successful tasks with an idle consumer.
The bounded progress channel (capacity 10, non-blocking send) drops
the eleventh record, so the final record received has current = 10
while total = 11, although the run completed without cancellation and
without error. -/
theorem C5_counterexample :
    (Execute stEmpty c5FsK [] c5Tasks).err = none ∧
    (Execute stEmpty c5FsK [] c5Tasks).panicked = false ∧
    c5Tasks.length = 11 ∧
    (Execute stEmpty c5FsK [] c5Tasks).received.getLast?.map
      (fun u => (u.current, u.total)) = some (10, 11) := by
  refine ⟨by decide, by decide, by decide, by decide⟩

/-- C5 amended: the records received on the progress channel form an
order-preserving subsequence of the emitted records; the i-th emitted
record carries Current = i+1 and Total = number of tasks, and when no
record is dropped (every emitted record is received) a completed
uncancelled run ends with a received record whose current equals its
total. -/
theorem C5_progress_received_order (st : MemStorage) (fs : Fs) (sched : List Nat)
    (tasks : List FileActionTask) :
    (Execute st fs sched tasks).received.Sublist (Execute st fs sched tasks).emitted ∧
    (Execute st fs sched tasks).emitted.map ProgressUpdate.current =
      List.range' 1 (Execute st fs sched tasks).emitted.length ∧
    (∀ u ∈ (Execute st fs sched tasks).emitted, u.total = tasks.length) ∧
    ((Execute st fs sched tasks).err = none →
      (Execute st fs sched tasks).panicked = false →
      (Execute st fs sched tasks).received.length = tasks.length →
      (Execute st fs sched tasks).received.getLast?.map (fun u => (u.current, u.total)) =
        if tasks.length = 0 then none else some (tasks.length, tasks.length)) := by
  unfold Execute
  have hspec := runAux_spec tasks st fs ⟨[], sched⟩ 0 tasks.length
  refine ⟨hspec.1, by simpa using hspec.2.1, hspec.2.2.1, ?_⟩
  intro herr hpan hrecv
  have hlen := hspec.2.2.2 herr hpan
  have hrecv2 : (runAux st fs ⟨[], sched⟩ 0 tasks.length tasks).received.length =
      (runAux st fs ⟨[], sched⟩ 0 tasks.length tasks).emitted.length := by
    rw [hrecv, hlen]
  have heq : (runAux st fs ⟨[], sched⟩ 0 tasks.length tasks).received =
      (runAux st fs ⟨[], sched⟩ 0 tasks.length tasks).emitted :=
    hspec.1.eq_of_length hrecv2
  rw [heq]
  by_cases h0 : tasks.length = 0
  · rw [if_pos h0]
    have hnil : (runAux st fs ⟨[], sched⟩ 0 tasks.length tasks).emitted = [] := by
      rw [← List.length_eq_zero, hlen, h0]
    simp [hnil]
  · rw [if_neg h0]
    have hm := hspec.2.1
    have hlast : ((runAux st fs ⟨[], sched⟩ 0 tasks.length tasks).emitted.map
        ProgressUpdate.current).getLast? = some tasks.length := by
      rw [hm, List.getLast?_range']
      rw [hlen]
      rw [if_neg h0]
      congr 1
      omega
    rw [List.getLast?_map] at hlast
    cases hg : (runAux st fs ⟨[], sched⟩ 0 tasks.length tasks).emitted.getLast? with
    | none => rw [hg] at hlast; simp at hlast
    | some u =>
      rw [hg] at hlast
      simp only [Option.map_some'] at hlast ⊢
      have hcur : u.current = tasks.length := by simpa using hlast
      have htot : u.total = tasks.length :=
        hspec.2.2.1 u (List.mem_of_mem_getLast? hg)
      rw [hcur, htot]

theorem C5_progress_received_order_witness :
    (Execute stEmpty (Fs.mk ["."] ["z"]) []
      [⟨FileAction.delete, some ⟨"z", "z", "hz", 1, 1⟩, none, none, "", false⟩]).received.getLast?.map
        (fun u => (u.current, u.total)) = some (1, 1) := by
  have h := (C5_progress_received_order stEmpty (Fs.mk ["."] ["z"]) []
    [⟨FileAction.delete, some ⟨"z", "z", "hz", 1, 1⟩, none, none, "", false⟩]).2.2.2
    (by decide) (by decide) (by decide)
  simpa using h

/-- C6: inside the Executor loop, a task failing with the
NotEmptyFolder sentinel is absorbed: the log line is the Info entry
with the " (folder is not empty)" suffix and the run continues with
the remaining tasks; a task failing with any other error is logged as
an Error and aborts the run: Execute returns that error, only the one
progress record is emitted and no later task changes the state. -/
theorem C6_not_empty_absorbed_other_error_aborts
    (st : MemStorage) (fs : Fs) (c : ChanState) (idx total : Nat)
    (t : FileActionTask) (ts : List FileActionTask) (r : StepRes)
    (hstep : ExecuteFileActionTask st fs t = some r) :
    (r.err = some GoErr.notEmptyFolder →
      (runAux st fs c idx total (t :: ts)).logs =
        (false, "Executed task: " ++ taskString t ++ " (folder is not empty)") ::
          (runAux r.st r.fs
            (chanSend c ⟨idx + 1, total, taskString t ++ " (folder is not empty)"⟩).1
            (idx + 1) total ts).logs ∧
      (runAux st fs c idx total (t :: ts)).err =
        (runAux r.st r.fs
          (chanSend c ⟨idx + 1, total, taskString t ++ " (folder is not empty)"⟩).1
          (idx + 1) total ts).err ∧
      (runAux st fs c idx total (t :: ts)).emitted =
        ⟨idx + 1, total, taskString t ++ " (folder is not empty)"⟩ ::
          (runAux r.st r.fs
            (chanSend c ⟨idx + 1, total, taskString t ++ " (folder is not empty)"⟩).1
            (idx + 1) total ts).emitted) ∧
    (∀ m, r.err = some (GoErr.other m) →
      (runAux st fs c idx total (t :: ts)).err = some (GoErr.other m) ∧
      (runAux st fs c idx total (t :: ts)).logs = [(true, m)] ∧
      (runAux st fs c idx total (t :: ts)).emitted = [⟨idx + 1, total, taskString t⟩] ∧
      (runAux st fs c idx total (t :: ts)).st = r.st ∧
      (runAux st fs c idx total (t :: ts)).fs = r.fs) := by
  constructor
  · intro hre
    simp only [runAux, hstep, hre]
    simp only [reduceCtorEq, reduceIte, if_pos rfl, errMsg]
    exact ⟨by trivial, by trivial, by trivial⟩
  · intro m hre
    simp only [runAux, hstep, hre]
    simp only [reduceCtorEq, reduceIte, errMsg]
    exact ⟨by trivial, by trivial, by trivial, by trivial, by trivial⟩

theorem C6_witness :
    ((runAux stEmpty c6Fs ⟨[], []⟩ 0 1 [c6NotEmptyTask]).logs =
      (false, "Executed task: " ++ taskString c6NotEmptyTask ++ " (folder is not empty)") ::
        (runAux stEmpty c6Fs
          (chanSend ⟨[], []⟩ ⟨1, 1, taskString c6NotEmptyTask ++ " (folder is not empty)"⟩).1
          1 1 []).logs) ∧
    ((runAux stEmpty c6Fs ⟨[], []⟩ 0 1 [c6NilTask]).err =
      some (GoErr.other "folder is nil")) :=
  ⟨((C6_not_empty_absorbed_other_error_aborts stEmpty c6Fs ⟨[], []⟩ 0 1 c6NotEmptyTask []
      ⟨stEmpty, c6Fs, some GoErr.notEmptyFolder⟩ (by decide)).1 (by decide)).1,
   ((C6_not_empty_absorbed_other_error_aborts stEmpty c6Fs ⟨[], []⟩ 0 1 c6NilTask []
      ⟨stEmpty, c6Fs, some (GoErr.other "folder is nil")⟩ (by decide)).2 "folder is nil"
      (by decide)).1⟩

/-! ### Association list and fold helpers -/

theorem alookup_mem {β : Type _} :
    ∀ (m : List (String × β)) (k : String) (v : β), alookup m k = some v → (k, v) ∈ m := by
  intro m
  induction m with
  | nil => intro k v h; simp [alookup] at h
  | cons e es ih =>
    intro k v h
    simp only [alookup] at h
    by_cases he : e.1 = k
    · rw [if_pos he] at h
      injection h with h2
      subst h2
      subst he
      simp
    · rw [if_neg he] at h
      exact List.mem_cons_of_mem _ (ih k v h)

theorem alookup_append_some {β : Type _} :
    ∀ (m l : List (String × β)) (k : String) (v : β),
      alookup m k = some v → alookup (m ++ l) k = some v := by
  intro m l
  induction m with
  | nil => intro k v h; simp [alookup] at h
  | cons e es ih =>
    intro k v h
    simp only [alookup, List.cons_append] at h ⊢
    by_cases he : e.1 = k
    · rwa [if_pos he] at h ⊢
    · rw [if_neg he] at h ⊢
      exact ih k v h

theorem alookup_append_none {β : Type _} :
    ∀ (m l : List (String × β)) (k : String),
      alookup m k = none → alookup (m ++ l) k = alookup l k := by
  intro m l
  induction m with
  | nil => intro k h; simp
  | cons e es ih =>
    intro k h
    simp only [alookup, List.cons_append] at h ⊢
    by_cases he : e.1 = k
    · rw [if_pos he] at h; cases h
    · rw [if_neg he] at h ⊢
      exact ih k h

theorem alookup_map_keyed {β : Type _} (g : β → β) :
    ∀ (m : List (String × β)) (k k2 : String),
      alookup (m.map (fun e => if e.1 = k then (e.1, g e.2) else e)) k2 =
        if k2 = k then (alookup m k2).map g else alookup m k2 := by
  intro m
  induction m with
  | nil => intro k k2; simp [alookup]
  | cons e es ih =>
    intro k k2
    by_cases hek : e.1 = k
    · by_cases he2 : e.1 = k2
      · have hk2 : k2 = k := he2.symm.trans hek
        simp only [List.map_cons, if_pos hek, alookup, if_pos he2, if_pos hk2]
        simp
      · have hk2 : ¬ k2 = k := fun h => he2 (hek.trans h.symm)
        simp only [List.map_cons, if_pos hek, alookup, if_neg he2, if_neg hk2]
        rw [ih k k2, if_neg hk2]
    · by_cases he2 : e.1 = k2
      · have hk2 : ¬ k2 = k := fun h => hek (he2.trans h)
        simp only [List.map_cons, if_neg hek, alookup, if_pos he2, if_neg hk2]
      · simp only [List.map_cons, if_neg hek, alookup, if_neg he2]
        exact ih k k2

theorem foldl_preserve {α β : Type _} (P : β → Prop) (step : β → α → β)
    (hpres : ∀ b a, P b → P (step b a)) :
    ∀ (l : List α) (b : β), P b → P (l.foldl step b) := by
  intro l
  induction l with
  | nil => intro b hb; exact hb
  | cons x xs ih => intro b hb; exact ih (step b x) (hpres b x hb)

theorem foldl_hit_inv {α β : Type _} [DecidableEq α] (I P : β → Prop)
    (step : β → α → β) (x : α)
    (hI : ∀ b a, I b → I (step b a))
    (hhit : ∀ b, I b → P (step b x))
    (hP : ∀ b a, P b → P (step b a)) :
    ∀ (l : List α) (b : β), I b → x ∈ l → P (l.foldl step b) := by
  intro l
  induction l with
  | nil => intro b _ hx; simp at hx
  | cons y ys ih =>
    intro b hIb hx
    by_cases hxy : x = y
    · subst hxy
      exact foldl_preserve P step hP ys (step b x) (hhit b hIb)
    · rcases List.mem_cons.mp hx with h1 | h2
      · exact absurd h1 hxy
      · exact ih (step b y) (hI b y hIb) h2

/-! ### The side updates of CalculateSimilarity are well behaved -/

theorem goodSide_addName (n : String) : goodSide (addName n) := by
  refine ⟨fun s => ?_, fun s => ?_, fun s => ?_, fun s => ?_⟩
  · unfold addName; by_cases h : n ∈ s.dupFiles <;> simp [h]
  · unfold addName
    by_cases h : n ∈ s.dupFiles
    · simp [h]
    · simp only [if_neg h]
      exact fun a ha => List.mem_append_left _ ha
  · unfold addName
    by_cases h : n ∈ s.dupFiles
    · simp [h]
    · simp only [if_neg h, List.length_append, List.length_cons, List.length_nil]
      intro h2; omega
  · unfold addName
    by_cases h : n ∈ s.dupFiles
    · simp [h]
    · simp only [if_neg h]
      intro h2
      rw [List.nodup_append]
      refine ⟨h2, List.nodup_singleton n, ?_⟩
      intro a ha hb
      rw [List.mem_singleton.mp hb] at ha
      exact h ha

theorem goodSide_addCount (c : Nat) : goodSide (addCount c) := by
  refine ⟨fun s => ?_, fun s => ?_, fun s => ?_, fun s => ?_⟩
  · simp [addCount]
  · simp [addCount]
  · simp only [addCount]
    intro h; omega
  · simp only [addCount]
    exact fun h => h

theorem goodSide_ite (P : Prop) [Decidable P] (f : Side → Side) (hf : goodSide f) :
    goodSide (fun s => if P then s else f s) := by
  refine ⟨?_, ?_, ?_, ?_⟩ <;> intro s <;> by_cases h : P <;> simp [h]
  · exact hf.1 s
  · exact hf.2.1 s
  · exact hf.2.2.1 s
  · exact hf.2.2.2 s

/-! ### How ensurePair and updOriented act on the pair map -/

theorem ensurePair_preserves (fc : String → Nat) (m : PairMap) (p1 p2 k : String)
    (pr : FolderPair) (h : alookup m k = some pr) :
    alookup (ensurePair fc m p1 p2) k = some pr := by
  unfold ensurePair
  cases he : alookup m (folderPairKey p1 p2) with
  | some pr2 => exact h
  | none => exact alookup_append_some m _ k pr h

theorem ensurePair_self (fc : String → Nat) (m : PairMap) (p1 p2 : String) :
    ∃ pr, alookup (ensurePair fc m p1 p2) (folderPairKey p1 p2) = some pr := by
  unfold ensurePair
  cases he : alookup m (folderPairKey p1 p2) with
  | some pr2 => exact ⟨pr2, he⟩
  | none =>
    refine ⟨(mkSide fc p1, mkSide fc p2), ?_⟩
    rw [alookup_append_none m _ _ he]
    simp [alookup]

theorem ensurePair_entries (fc : String → Nat) (m : PairMap) (p1 p2 : String)
    (e : String × FolderPair) (he : e ∈ ensurePair fc m p1 p2) :
    e ∈ m ∨ e = (folderPairKey p1 p2, (mkSide fc p1, mkSide fc p2)) := by
  unfold ensurePair at he
  cases h : alookup m (folderPairKey p1 p2) with
  | some pr2 => rw [h] at he; exact Or.inl he
  | none =>
    rw [h] at he
    rcases List.mem_append.mp he with h1 | h2
    · exact Or.inl h1
    · simp at h2
      exact Or.inr h2

theorem updOriented_entries (m : PairMap) (k p : String) (fa fb : Side → Side)
    (e : String × FolderPair) (he : e ∈ updOriented m k p fa fb) :
    ∃ e0 ∈ m, e = e0 ∨
      e = (e0.1, if e0.2.1.path = p then (fa e0.2.1, fb e0.2.2) else (fb e0.2.1, fa e0.2.2)) := by
  unfold updOriented at he
  rcases List.mem_map.mp he with ⟨e0, he0, heq⟩
  refine ⟨e0, he0, ?_⟩
  by_cases hk : e0.1 = k
  · rw [if_pos hk] at heq
    exact Or.inr heq.symm
  · rw [if_neg hk] at heq
    exact Or.inl heq.symm

theorem alookup_updOriented (m : PairMap) (k p : String) (fa fb : Side → Side) (k2 : String) :
    alookup (updOriented m k p fa fb) k2 =
      if k2 = k then
        (alookup m k2).map (fun pr =>
          if pr.1.path = p then (fa pr.1, fb pr.2) else (fb pr.1, fa pr.2))
      else alookup m k2 :=
  alookup_map_keyed
    (fun pr : FolderPair => if pr.1.path = p then (fa pr.1, fb pr.2) else (fb pr.1, fa pr.2)) m k k2

/-! ### Invariant preservation across the map operations -/

theorem pairKeyInv_ensurePair (fc : String → Nat) (m : PairMap) (p1 p2 : String)
    (h : pairKeyInv m) : pairKeyInv (ensurePair fc m p1 p2) := by
  intro e he
  rcases ensurePair_entries fc m p1 p2 e he with h1 | h2
  · exact h e h1
  · rw [h2]
    simp [mkSide]

theorem pairKeyInv_updOriented (m : PairMap) (k p : String) (fa fb : Side → Side)
    (hfa : goodSide fa) (hfb : goodSide fb) (h : pairKeyInv m) :
    pairKeyInv (updOriented m k p fa fb) := by
  intro e he
  rcases updOriented_entries m k p fa fb e he with ⟨e0, he0, heq | heq⟩
  · rw [heq]; exact h e0 he0
  · rw [heq]
    by_cases hp : e0.2.1.path = p
    · simp only [if_pos hp, hfa.1, hfb.1]
      exact h e0 he0
    · simp only [if_neg hp, hfa.1, hfb.1]
      exact h e0 he0

theorem pairCountInv_ensurePair (fc : String → Nat) (m : PairMap) (p1 p2 : String)
    (h : pairCountInv m) : pairCountInv (ensurePair fc m p1 p2) := by
  intro e he
  rcases ensurePair_entries fc m p1 p2 e he with h1 | h2
  · exact h e h1
  · rw [h2]; simp [mkSide]

theorem pairCountInv_updOriented (m : PairMap) (k p : String) (fa fb : Side → Side)
    (hfa : goodSide fa) (hfb : goodSide fb) (h : pairCountInv m) :
    pairCountInv (updOriented m k p fa fb) := by
  intro e he
  rcases updOriented_entries m k p fa fb e he with ⟨e0, he0, heq | heq⟩
  · rw [heq]; exact h e0 he0
  · rw [heq]
    by_cases hp : e0.2.1.path = p
    · simp only [if_pos hp]
      exact ⟨hfa.2.2.1 _ (h e0 he0).1, hfb.2.2.1 _ (h e0 he0).2⟩
    · simp only [if_neg hp]
      exact ⟨hfb.2.2.1 _ (h e0 he0).1, hfa.2.2.1 _ (h e0 he0).2⟩

theorem pairNodupInv_ensurePair (fc : String → Nat) (m : PairMap) (p1 p2 : String)
    (h : pairNodupInv m) : pairNodupInv (ensurePair fc m p1 p2) := by
  intro e he
  rcases ensurePair_entries fc m p1 p2 e he with h1 | h2
  · exact h e h1
  · rw [h2]; simp [mkSide]

theorem pairNodupInv_updOriented (m : PairMap) (k p : String) (fa fb : Side → Side)
    (hfa : goodSide fa) (hfb : goodSide fb) (h : pairNodupInv m) :
    pairNodupInv (updOriented m k p fa fb) := by
  intro e he
  rcases updOriented_entries m k p fa fb e he with ⟨e0, he0, heq | heq⟩
  · rw [heq]; exact h e0 he0
  · rw [heq]
    by_cases hp : e0.2.1.path = p
    · simp only [if_pos hp]
      exact ⟨hfa.2.2.2 _ (h e0 he0).1, hfb.2.2.2 _ (h e0 he0).2⟩
    · simp only [if_neg hp]
      exact ⟨hfb.2.2.2 _ (h e0 he0).1, hfa.2.2.2 _ (h e0 he0).2⟩

/-! ### Recorded basenames only grow -/

theorem sideNamesAt_ensurePair (fc : String → Nat) (m : PairMap) (p1 p2 k p : String) :
    sideNamesAt m k p ⊆ sideNamesAt (ensurePair fc m p1 p2) k p := by
  unfold sideNamesAt
  cases h : alookup m k with
  | none => simp
  | some pr =>
    rw [ensurePair_preserves fc m p1 p2 k pr h]
    exact fun a ha => ha

theorem sideNamesAt_updOriented (m : PairMap) (k0 p0 : String) (fa fb : Side → Side)
    (hfa : goodSide fa) (hfb : goodSide fb) (k p : String) :
    sideNamesAt m k p ⊆ sideNamesAt (updOriented m k0 p0 fa fb) k p := by
  unfold sideNamesAt
  rw [alookup_updOriented]
  by_cases hk : k = k0
  · rw [if_pos hk]
    cases h : alookup m k with
    | none => simp
    | some pr =>
      simp only [Option.map_some']
      unfold orientPair
      by_cases hp : pr.1.path = p0
      · simp only [if_pos hp]
        by_cases hp2 : pr.1.path = p
        · rw [if_pos hp2, if_pos (by rw [hfa.1, hp2])]
          exact hfa.2.1 pr.1
        · rw [if_neg hp2, if_neg (by rw [hfa.1]; exact hp2)]
          exact hfb.2.1 pr.2
      · simp only [if_neg hp]
        by_cases hp2 : pr.1.path = p
        · rw [if_pos hp2, if_pos (by rw [hfb.1, hp2])]
          exact hfb.2.1 pr.1
        · rw [if_neg hp2, if_neg (by rw [hfb.1]; exact hp2)]
          exact hfa.2.1 pr.2
  · rw [if_neg hk]
    exact fun a ha => ha

/-! ### Splitting canonical keys back into paths -/

theorem stringMkData (s : String) : String.mk s.data = s := by
  cases s; rfl

theorem splitChar_not_mem (c : Char) :
    ∀ l : List Char, c ∉ l → splitChar c l = [l] := by
  intro l
  induction l with
  | nil => intro h; rfl
  | cons x xs ih =>
    intro h
    have hx : ¬ x = c := fun he => h (by rw [he]; exact List.mem_cons_self _ _)
    have hxs : c ∉ xs := fun he => h (List.mem_cons_of_mem _ he)
    simp only [splitChar, if_neg hx, ih hxs]

theorem splitChar_prefix (c : Char) :
    ∀ xs ys : List Char, c ∉ xs →
      splitChar c (xs ++ c :: ys) = xs :: splitChar c ys := by
  intro xs
  induction xs with
  | nil =>
    intro ys h
    simp [splitChar]
  | cons x xs2 ih =>
    intro ys h
    have hx : ¬ x = c := fun he => h (by rw [he]; exact List.mem_cons_self _ _)
    have hxs : c ∉ xs2 := fun he => h (List.mem_cons_of_mem _ he)
    simp only [List.cons_append, splitChar, if_neg hx]
    rw [show xs2.append (c :: ys) = xs2 ++ c :: ys from rfl, ih ys hxs]

theorem append_sep_inj (c : Char) :
    ∀ as xs bs ys : List Char, c ∉ as → c ∉ bs →
      as ++ c :: bs = xs ++ c :: ys → as = xs ∧ bs = ys := by
  intro as
  induction as with
  | nil =>
    intro xs bs ys _ hbs h
    cases xs with
    | nil =>
      simp at h
      exact ⟨rfl, h⟩
    | cons x xs2 =>
      simp at h
      have hc : c ∈ bs := by
        rw [h.2]
        exact List.mem_append_right _ (List.mem_cons_self _ _)
      exact absurd hc hbs
  | cons a as2 ih =>
    intro xs bs ys has hbs h
    have ha : ¬ a = c := fun he => has (by rw [he]; exact List.mem_cons_self _ _)
    have has2 : c ∉ as2 := fun he => has (List.mem_cons_of_mem _ he)
    cases xs with
    | nil =>
      simp at h
      exact absurd h.1 ha
    | cons x xs2 =>
      simp at h
      have := ih xs2 bs ys has2 hbs h.2
      exact ⟨by rw [h.1, this.1], this.2⟩

theorem sepKeyData (a b : String) : (a ++ ":" ++ b).data = a.data ++ ':' :: b.data := by
  rw [String.data_append, String.data_append]
  rw [show (":" : String).data = [':'] from by decide]
  rw [List.append_assoc]
  rfl

theorem goSplit_sep (a b : String) (ha : ':' ∉ a.data) (hb : ':' ∉ b.data) :
    goSplit (a ++ ":" ++ b) = [a, b] := by
  unfold goSplit
  rw [sepKeyData, splitChar_prefix _ _ _ ha, splitChar_not_mem _ _ hb]
  simp [stringMkData]

theorem folderPairKey_cases (a b : String) :
    folderPairKey a b = a ++ ":" ++ b ∨ folderPairKey a b = b ++ ":" ++ a := by
  unfold folderPairKey
  by_cases h : goStrLt b a <;> simp [h]

theorem folderPairKey_inj (x y A B : String) (hA : ':' ∉ A.data) (hB : ':' ∉ B.data)
    (h : folderPairKey x y = folderPairKey A B) :
    (x = A ∧ y = B) ∨ (x = B ∧ y = A) := by
  rcases folderPairKey_cases x y with hxy | hxy <;>
    rcases folderPairKey_cases A B with hAB | hAB <;> rw [hxy, hAB] at h <;>
      have hd := congrArg String.data h <;> rw [sepKeyData, sepKeyData] at hd
  · have := append_sep_inj ':' A.data x.data B.data y.data hA hB hd.symm
    exact Or.inl ⟨(stringEqOfData this.1).symm, (stringEqOfData this.2).symm⟩
  · have := append_sep_inj ':' B.data x.data A.data y.data hB hA hd.symm
    exact Or.inr ⟨(stringEqOfData this.1).symm, (stringEqOfData this.2).symm⟩
  · have := append_sep_inj ':' A.data y.data B.data x.data hA hB hd.symm
    exact Or.inr ⟨(stringEqOfData this.2).symm, (stringEqOfData this.1).symm⟩
  · have := append_sep_inj ':' B.data y.data A.data x.data hB hA hd.symm
    exact Or.inl ⟨(stringEqOfData this.2).symm, (stringEqOfData this.1).symm⟩

theorem addName_self_mem (n : String) (s : Side) : n ∈ (addName n s).dupFiles := by
  unfold addName
  by_cases h : n ∈ s.dupFiles
  · simp only [if_pos h]
    exact h
  · simp [h]

theorem pairsOf_complete :
    ∀ (g : List GFile) (a b : GFile), a ∈ g → b ∈ g → a ≠ b →
      (a, b) ∈ pairsOf g ∨ (b, a) ∈ pairsOf g := by
  intro g
  induction g with
  | nil => intro a b ha; simp at ha
  | cons x xs ih =>
    intro a b ha hb hab
    rcases List.mem_cons.mp ha with ha1 | ha2
    · have hb2 : b ∈ xs := by
        rcases List.mem_cons.mp hb with hb1 | hb2
        · exact absurd (ha1.trans hb1.symm) hab
        · exact hb2
      left
      simp only [pairsOf, List.mem_append]
      left
      rw [ha1]
      exact List.mem_map.mpr ⟨b, hb2, rfl⟩
    · rcases List.mem_cons.mp hb with hb1 | hb2
      · right
        simp only [pairsOf, List.mem_append]
        left
        rw [hb1]
        exact List.mem_map.mpr ⟨a, ha2, rfl⟩
      · rcases ih a b ha2 hb2 hab with h1 | h1
        · left; simp only [pairsOf, List.mem_append]; right; exact h1
        · right; simp only [pairsOf, List.mem_append]; right; exact h1

/-! ### Step A: per-pair facts -/

theorem stepAPair_names_mono (fc : String → Nat) (m : PairMap) (x y : GFile)
    (k p : String) :
    sideNamesAt m k p ⊆ sideNamesAt (stepAPair fc m x y) k p := by
  unfold stepAPair
  intro a ha
  exact sideNamesAt_updOriented _ _ _ _ _ (goodSide_addName _) (goodSide_addName _) k p
    (sideNamesAt_ensurePair fc m x.parent y.parent k p ha)

theorem stepAPair_keyInv (fc : String → Nat) (m : PairMap) (x y : GFile)
    (h : pairKeyInv m) : pairKeyInv (stepAPair fc m x y) :=
  pairKeyInv_updOriented _ _ _ _ _ (goodSide_addName _) (goodSide_addName _)
    (pairKeyInv_ensurePair fc m _ _ h)

theorem stepAPair_countInv (fc : String → Nat) (m : PairMap) (x y : GFile)
    (h : pairCountInv m) : pairCountInv (stepAPair fc m x y) :=
  pairCountInv_updOriented _ _ _ _ _ (goodSide_addName _) (goodSide_addName _)
    (pairCountInv_ensurePair fc m _ _ h)

theorem stepAPair_nodupInv (fc : String → Nat) (m : PairMap) (x y : GFile)
    (h : pairNodupInv m) : pairNodupInv (stepAPair fc m x y) :=
  pairNodupInv_updOriented _ _ _ _ _ (goodSide_addName _) (goodSide_addName _)
    (pairNodupInv_ensurePair fc m _ _ h)

theorem stepAPair_hit_fwd (fc : String → Nat) (m : PairMap) (x y : GFile) :
    x.name ∈ sideNamesAt (stepAPair fc m x y) (folderPairKey x.parent y.parent) x.parent := by
  unfold stepAPair sideNamesAt
  obtain ⟨pr, hpr⟩ := ensurePair_self fc m x.parent y.parent
  rw [alookup_updOriented, if_pos rfl, hpr]
  simp only [Option.map_some']
  unfold orientPair
  by_cases hp : pr.1.path = x.parent
  · rw [if_pos hp]
    rw [if_pos (by rw [(goodSide_addName x.name).1, hp])]
    exact addName_self_mem x.name pr.1
  · rw [if_neg hp]
    rw [if_neg (by rw [(goodSide_addName y.name).1]; exact hp)]
    exact addName_self_mem x.name pr.2

theorem stepAPair_hit_rev (fc : String → Nat) (m : PairMap) (x y : GFile)
    (A B : String) (hx : x.parent = B) (hy : y.parent = A) (hAB : A ≠ B)
    (hA : ':' ∉ A.data) (hB : ':' ∉ B.data) (hinv : pairKeyInv m) :
    y.name ∈ sideNamesAt (stepAPair fc m x y) (folderPairKey A B) A := by
  unfold stepAPair sideNamesAt
  obtain ⟨pr, hpr⟩ := ensurePair_self fc m x.parent y.parent
  have hkeq : folderPairKey A B = folderPairKey x.parent y.parent := by
    rw [hx, hy]
    exact folderPairKey_comm A B
  have hinv2 := pairKeyInv_ensurePair fc m x.parent y.parent hinv
  have hkey : folderPairKey x.parent y.parent = folderPairKey pr.1.path pr.2.path :=
    hinv2 _ (alookup_mem _ _ _ hpr)
  have hsides : (pr.1.path = A ∧ pr.2.path = B) ∨ (pr.1.path = B ∧ pr.2.path = A) :=
    folderPairKey_inj pr.1.path pr.2.path A B hA hB (hkey.symm.trans hkeq.symm)
  rw [alookup_updOriented, if_pos hkeq, hkeq, hpr]
  simp only [Option.map_some']
  unfold orientPair
  rcases hsides with ⟨h1, _⟩ | ⟨h1, _⟩
  · have hup : ¬ pr.1.path = x.parent := by rw [h1, hx]; exact hAB
    rw [if_neg hup]
    rw [if_pos (by rw [(goodSide_addName y.name).1, h1])]
    exact addName_self_mem y.name pr.1
  · have hup : pr.1.path = x.parent := by rw [h1, hx]
    rw [if_pos hup]
    have hne : ¬ pr.1.path = A := by rw [h1]; exact fun h => hAB h.symm
    rw [if_neg (by rw [(goodSide_addName x.name).1]; exact hne)]
    exact addName_self_mem y.name pr.2

/-! ### Step A: group and whole-input facts -/

theorem groupFold_names_mono (fc : String → Nat) (g : List GFile) (k p : String)
    (m : PairMap) :
    sideNamesAt m k p ⊆
      sideNamesAt ((pairsOf g).foldl (fun m pr => stepAPair fc m pr.1 pr.2) m) k p := by
  intro a ha
  refine foldl_preserve (fun b => a ∈ sideNamesAt b k p) _ ?_ (pairsOf g) m ha
  intro b pr hb
  exact stepAPair_names_mono fc b pr.1 pr.2 k p hb

theorem groupFold_keyInv (fc : String → Nat) (g : List GFile) (m : PairMap)
    (h : pairKeyInv m) :
    pairKeyInv ((pairsOf g).foldl (fun m pr => stepAPair fc m pr.1 pr.2) m) := by
  refine foldl_preserve pairKeyInv _ ?_ (pairsOf g) m h
  intro b pr hb
  exact stepAPair_keyInv fc b pr.1 pr.2 hb

theorem groupFold_hit (fc : String → Nat) (g : List GFile) (A B n : String)
    (hAB : A ≠ B) (hA : ':' ∉ A.data) (hB : ':' ∉ B.data)
    (m : PairMap) (hinv : pairKeyInv m) (hn : n ∈ sharedInGroup g A B) :
    n ∈ sideNamesAt ((pairsOf g).foldl (fun m pr => stepAPair fc m pr.1 pr.2) m)
      (folderPairKey A B) A := by
  unfold sharedInGroup at hn
  by_cases hany : g.any (fun f => f.parent = B)
  · rw [if_pos hany] at hn
    rcases List.mem_map.mp hn with ⟨fi, hfi, hfin⟩
    have hfiA : fi.parent = A := by
      have := (List.mem_filter.mp hfi).2
      simpa using this
    have hfig : fi ∈ g := (List.mem_filter.mp hfi).1
    rcases List.any_eq_true.mp hany with ⟨fj, hfjg, hfjB⟩
    have hfjB2 : fj.parent = B := by simpa using hfjB
    have hne : fi ≠ fj := by
      intro he
      rw [he, hfjB2] at hfiA
      exact hAB hfiA.symm
    rcases pairsOf_complete g fi fj hfig hfjg hne with hpair | hpair
    · refine foldl_hit_inv pairKeyInv (fun b => n ∈ sideNamesAt b (folderPairKey A B) A)
        (fun m pr => stepAPair fc m pr.1 pr.2) (fi, fj) ?_ ?_ ?_ (pairsOf g) m hinv hpair
      · intro b pr hb
        exact stepAPair_keyInv fc b pr.1 pr.2 hb
      · intro b _
        have := stepAPair_hit_fwd fc b fi fj
        rw [hfiA, hfjB2, hfin] at this
        exact this
      · intro b pr hb
        exact stepAPair_names_mono fc b pr.1 pr.2 _ _ hb
    · refine foldl_hit_inv pairKeyInv (fun b => n ∈ sideNamesAt b (folderPairKey A B) A)
        (fun m pr => stepAPair fc m pr.1 pr.2) (fj, fi) ?_ ?_ ?_ (pairsOf g) m hinv hpair
      · intro b pr hb
        exact stepAPair_keyInv fc b pr.1 pr.2 hb
      · intro b hIb
        have := stepAPair_hit_rev fc b fj fi A B hfjB2 hfiA hAB hA hB hIb
        rw [hfin] at this
        exact this
      · intro b pr hb
        exact stepAPair_names_mono fc b pr.1 pr.2 _ _ hb
  · rw [if_neg hany] at hn
    simp at hn

theorem stepA_shared_names (fc : String → Nat) (groups : List (List GFile))
    (A B n : String) (hAB : A ≠ B) (hA : ':' ∉ A.data) (hB : ':' ∉ B.data)
    (hn : n ∈ sharedDupNames groups A B) :
    n ∈ sideNamesAt (stepA fc groups) (folderPairKey A B) A := by
  unfold sharedDupNames at hn
  rcases List.mem_flatMap.mp hn with ⟨g, hg, hng⟩
  unfold stepA
  refine foldl_hit_inv pairKeyInv (fun b => n ∈ sideNamesAt b (folderPairKey A B) A)
    (fun m g => (pairsOf g).foldl (fun m pr => stepAPair fc m pr.1 pr.2) m) g
    ?_ ?_ ?_ groups [] (by intro e he; simp at he) hg
  · intro b g2 hb
    exact groupFold_keyInv fc g2 b hb
  · intro b hIb
    exact groupFold_hit fc g A B n hAB hA hB b hIb hng
  · intro b g2 hb
    exact groupFold_names_mono fc g2 _ _ b hb

theorem stepA_invs (fc : String → Nat) (groups : List (List GFile)) :
    pairKeyInv (stepA fc groups) ∧ pairCountInv (stepA fc groups) ∧
      pairNodupInv (stepA fc groups) := by
  unfold stepA
  refine foldl_preserve
    (fun m => pairKeyInv m ∧ pairCountInv m ∧ pairNodupInv m) _ ?_ groups []
    ⟨by intro e he; simp at he, by intro e he; simp at he, by intro e he; simp at he⟩
  intro b g hb
  refine foldl_preserve
    (fun m => pairKeyInv m ∧ pairCountInv m ∧ pairNodupInv m) _ ?_ (pairsOf g) b hb
  intro b2 pr hb2
  exact ⟨stepAPair_keyInv fc b2 pr.1 pr.2 hb2.1, stepAPair_countInv fc b2 pr.1 pr.2 hb2.2.1,
    stepAPair_nodupInv fc b2 pr.1 pr.2 hb2.2.2⟩

/-! ### Step B: ancestor propagation only grows counts -/

theorem propagate_names_mono (fc : String → Nat) (p1 p2 : String) (c1 c2 : Nat)
    (m : PairMap) (k p : String) :
    sideNamesAt m k p ⊆ sideNamesAt (propagate fc p1 p2 c1 c2 m) k p := by
  unfold propagate
  by_cases hg : goDir p1 = goDir p2
  · rw [if_pos hg]
    exact fun a ha => ha
  · rw [if_neg hg]
    intro a ha
    refine foldl_preserve (fun b => a ∈ sideNamesAt b k p) _ ?_ _ m ha
    intro b pa hb
    refine foldl_preserve (fun b => a ∈ sideNamesAt b k p) _ ?_ _ b hb
    intro b2 pb hb2
    refine sideNamesAt_updOriented _ _ _ _ _
      (goodSide_ite _ _ (goodSide_addCount c1)) (goodSide_ite _ _ (goodSide_addCount c2)) k p ?_
    exact sideNamesAt_ensurePair fc b2 pa pb k p hb2

theorem propagate_invs (fc : String → Nat) (p1 p2 : String) (c1 c2 : Nat)
    (m : PairMap)
    (h : pairKeyInv m ∧ pairCountInv m ∧ pairNodupInv m) :
    pairKeyInv (propagate fc p1 p2 c1 c2 m) ∧ pairCountInv (propagate fc p1 p2 c1 c2 m) ∧
      pairNodupInv (propagate fc p1 p2 c1 c2 m) := by
  unfold propagate
  by_cases hg : goDir p1 = goDir p2
  · rw [if_pos hg]; exact h
  · rw [if_neg hg]
    refine foldl_preserve
      (fun m => pairKeyInv m ∧ pairCountInv m ∧ pairNodupInv m) _ ?_ _ m h
    intro b pa hb
    refine foldl_preserve
      (fun m => pairKeyInv m ∧ pairCountInv m ∧ pairNodupInv m) _ ?_ _ b hb
    intro b2 pb hb2
    have ga := goodSide_ite
      (folderPairKey pa pb = folderPairKey p1 p2 ∧ pa = p1) _ (goodSide_addCount c1)
    have gb := goodSide_ite
      (folderPairKey pa pb = folderPairKey p1 p2 ∧ pa = p1) _ (goodSide_addCount c2)
    exact ⟨pairKeyInv_updOriented _ _ _ _ _ ga gb (pairKeyInv_ensurePair fc b2 pa pb hb2.1),
      pairCountInv_updOriented _ _ _ _ _ ga gb (pairCountInv_ensurePair fc b2 pa pb hb2.2.1),
      pairNodupInv_updOriented _ _ _ _ _ ga gb (pairNodupInv_ensurePair fc b2 pa pb hb2.2.2)⟩

theorem stepB_names_mono (fc : String → Nat) (m0 : PairMap) (k p : String) :
    sideNamesAt m0 k p ⊆ sideNamesAt (stepB fc m0) k p := by
  unfold stepB
  intro a ha
  refine foldl_preserve (fun b => a ∈ sideNamesAt b k p) _ ?_ _ m0 ha
  intro b k2 hb
  cases h : alookup b k2 with
  | none => exact hb
  | some pr => exact propagate_names_mono fc pr.1.path pr.2.path pr.1.dupCount pr.2.dupCount b k p hb

theorem stepB_invs (fc : String → Nat) (m0 : PairMap)
    (h : pairKeyInv m0 ∧ pairCountInv m0 ∧ pairNodupInv m0) :
    pairKeyInv (stepB fc m0) ∧ pairCountInv (stepB fc m0) ∧ pairNodupInv (stepB fc m0) := by
  unfold stepB
  refine foldl_preserve
    (fun m => pairKeyInv m ∧ pairCountInv m ∧ pairNodupInv m) _ ?_ _ m0 h
  intro b k2 hb
  cases hk : alookup b k2 with
  | none => exact hb
  | some pr => exact propagate_invs fc pr.1.path pr.2.path pr.1.dupCount pr.2.dupCount b hb

/-- C1: after CalculateSimilarity, for two distinct folders A and B
whose paths are free of the pair-key separator, the A-oriented side of
the pair keyed (A, B) counts at least the distinct basenames A shares
with B across the matched groups (step B only ever adds to the
counts); concretely, on the tree ./p/a/x, ./q/b/x, ./p/a/y, ./q/b/y
the pairs (p/a, q/b), (p, q) and (p/a, q) all exist with duplicate
count 2 on both sides. -/
theorem C1_ancestor_propagation :
    (∀ (fc : String → Nat) (groups : List (List GFile)) (A B : String),
      A ≠ B → ':' ∉ A.data → ':' ∉ B.data →
      sharedDupNames groups A B ≠ [] →
      ∃ pr : FolderPair,
        alookup (CalculateSimilarity fc groups).pairs (folderPairKey A B) = some pr ∧
        (sharedDupNames groups A B).toFinset.card ≤ (orientPair pr A).1.dupCount) ∧
    ((alookup (CalculateSimilarity s2Fc s2Groups).pairs (folderPairKey "p/a" "q/b")).map
      (fun pr => (pr.1.path, pr.1.dupCount, pr.2.path, pr.2.dupCount)) =
      some ("p/a", 2, "q/b", 2)) ∧
    ((alookup (CalculateSimilarity s2Fc s2Groups).pairs (folderPairKey "p" "q")).map
      (fun pr => (pr.1.path, pr.1.dupCount, pr.2.path, pr.2.dupCount)) =
      some ("p", 2, "q", 2)) ∧
    ((alookup (CalculateSimilarity s2Fc s2Groups).pairs (folderPairKey "p/a" "q")).map
      (fun pr => (pr.1.path, pr.1.dupCount, pr.2.path, pr.2.dupCount)) =
      some ("p/a", 2, "q", 2)) := by
  refine ⟨?_, by decide, by decide, by decide⟩
  intro fc groups A B hAB hA hB hne
  have hpairs : (CalculateSimilarity fc groups).pairs = stepB fc (stepA fc groups) := rfl
  obtain ⟨n0, hn0⟩ := List.exists_mem_of_ne_nil _ hne
  have hmem0 : n0 ∈ sideNamesAt (stepB fc (stepA fc groups)) (folderPairKey A B) A :=
    stepB_names_mono fc _ _ _ (stepA_shared_names fc groups A B n0 hAB hA hB hn0)
  cases hlk : alookup (stepB fc (stepA fc groups)) (folderPairKey A B) with
  | none =>
    unfold sideNamesAt at hmem0
    rw [hlk] at hmem0
    simp at hmem0
  | some pr =>
    refine ⟨pr, by rw [hpairs, hlk], ?_⟩
    have hnames : sideNamesAt (stepB fc (stepA fc groups)) (folderPairKey A B) A =
        (orientPair pr A).1.dupFiles := by
      unfold sideNamesAt
      rw [hlk]
    have hsub : ∀ n ∈ sharedDupNames groups A B, n ∈ (orientPair pr A).1.dupFiles := by
      intro n hn
      rw [← hnames]
      exact stepB_names_mono fc _ _ _ (stepA_shared_names fc groups A B n hAB hA hB hn)
    have hAinvs := stepA_invs fc groups
    have hinvs := stepB_invs fc (stepA fc groups) hAinvs
    have hprmem := alookup_mem _ _ _ hlk
    have hcount := hinvs.2.1 _ hprmem
    have hnodup := hinvs.2.2 _ hprmem
    have hcount2 : (orientPair pr A).1.dupFiles.length ≤ (orientPair pr A).1.dupCount := by
      unfold orientPair
      by_cases h : pr.1.path = A
      · rw [if_pos h]; exact hcount.1
      · rw [if_neg h]; exact hcount.2
    have hnodup2 : (orientPair pr A).1.dupFiles.Nodup := by
      unfold orientPair
      by_cases h : pr.1.path = A
      · rw [if_pos h]; exact hnodup.1
      · rw [if_neg h]; exact hnodup.2
    calc (sharedDupNames groups A B).toFinset.card
        ≤ (orientPair pr A).1.dupFiles.toFinset.card := by
          refine Finset.card_le_card ?_
          intro x hx
          exact List.mem_toFinset.mpr (hsub x (List.mem_toFinset.mp hx))
      _ = (orientPair pr A).1.dupFiles.length := List.toFinset_card_of_nodup hnodup2
      _ ≤ (orientPair pr A).1.dupCount := hcount2

theorem C1_witness :
    ∃ pr : FolderPair,
      alookup (CalculateSimilarity s2Fc s2Groups).pairs (folderPairKey "p/a" "q/b") = some pr ∧
      (sharedDupNames s2Groups "p/a" "q/b").toFinset.card ≤ (orientPair pr "p/a").1.dupCount :=
  C1_ancestor_propagation.1 s2Fc s2Groups "p/a" "q/b" (by decide) (by decide) (by decide)
    (by decide)

/-! ### Reverse-index build -/

theorem appendKey_self (sm : List (String × List String)) (p k : String) :
    k ∈ alookupD (appendKey sm p k) p [] := by
  unfold appendKey alookupD
  cases h : alookup sm p with
  | some l =>
    rw [alookup_map_keyed (fun l2 => l2 ++ [k]) sm p p, if_pos rfl, h]
    simp
  | none =>
    rw [alookup_append_none sm _ _ h]
    simp [alookup]

theorem appendKey_superset (sm : List (String × List String)) (p k0 q k : String)
    (h : k ∈ alookupD sm q []) : k ∈ alookupD (appendKey sm p k0) q [] := by
  unfold appendKey
  unfold alookupD at h ⊢
  cases hq : alookup sm q with
  | none => rw [hq] at h; simp at h
  | some l =>
    rw [hq] at h
    simp only [Option.getD_some] at h
    cases hp : alookup sm p with
    | some l2 =>
      rw [alookup_map_keyed (fun l2 => l2 ++ [k0]) sm p q]
      by_cases hqp : q = p
      · rw [if_pos hqp, hq]
        simp only [Option.map_some', Option.getD_some]
        exact List.mem_append_left _ h
      · rw [if_neg hqp, hq]
        exact h
    | none =>
      rw [alookup_append_some sm _ q l hq]
      exact h

theorem buildSimMap_mem (m : PairMap) (k : String) (pr : FolderPair) (x y : String)
    (hm : (k, pr) ∈ m) (hsplit : goSplit k = [x, y]) (hxy : x ≠ y) :
    k ∈ alookupD (buildSimMap m) x [] ∧ k ∈ alookupD (buildSimMap m) y [] := by
  unfold buildSimMap
  refine foldl_hit_inv (fun _ => True)
    (fun sm => k ∈ alookupD sm x [] ∧ k ∈ alookupD sm y [])
    (fun sm e =>
      match goSplit e.1 with
      | [pa, pb] => if pa = pb then sm else appendKey (appendKey sm pa e.1) pb e.1
      | _ => sm) (k, pr) (fun _ _ _ => trivial) ?_ ?_ m [] trivial hm
  · intro sm _
    simp only [hsplit]
    rw [if_neg hxy]
    constructor
    · exact appendKey_superset _ _ _ _ _ (appendKey_self sm x k)
    · exact appendKey_self _ y k
  · intro sm e hsm
    dsimp only
    cases hsp : goSplit e.1 with
    | nil => exact hsm
    | cons pa rest =>
      cases rest with
      | nil => exact hsm
      | cons pb rest2 =>
        cases rest2 with
        | nil =>
          by_cases hpp : pa = pb
          · simp only [hpp, if_pos rfl]
            exact hsm
          · simp only [if_neg hpp]
            exact ⟨appendKey_superset _ _ _ _ _ (appendKey_superset _ _ _ _ _ hsm.1),
              appendKey_superset _ _ _ _ _ (appendKey_superset _ _ _ _ _ hsm.2)⟩
        | cons z zs => exact hsm

/-- C10: every entry of the similarity pair map is keyed by the
canonical key of its two side paths; when neither path contains ":"
the key splits back into exactly the two paths (the invalid-key skip
branches cannot fire) and every cross-folder pair is registered in the
reverse index under both of its paths.  When a folder path does
contain ":", the pair over it is silently dropped: splitting its key
yields three parts, so with the matched group over folders a:b and c
the pair exists with positive counts on both sides, yet the reverse
index stays empty and GetSimilarityFolderGroup finds nothing. -/
theorem C10_colon_free_keys_reverse_index :
    (∀ (fc : String → Nat) (groups : List (List GFile)) (k : String) (pr : FolderPair),
      alookup (CalculateSimilarity fc groups).pairs k = some pr →
      k = folderPairKey pr.1.path pr.2.path ∧
      (':' ∉ pr.1.path.data → ':' ∉ pr.2.path.data →
        goSplit k = (if goStrLt pr.2.path pr.1.path then [pr.2.path, pr.1.path]
          else [pr.1.path, pr.2.path]) ∧
        (pr.1.path ≠ pr.2.path →
          k ∈ alookupD (CalculateSimilarity fc groups).simMap pr.1.path [] ∧
          k ∈ alookupD (CalculateSimilarity fc groups).simMap pr.2.path []))) ∧
    ((alookup (CalculateSimilarity s2Fc colonGroups).pairs "a:b:c").map
      (fun pr => (pr.1.path, pr.1.dupCount, pr.2.path, pr.2.dupCount)) =
      some ("a:b", 1, "c", 1)) ∧
    (CalculateSimilarity s2Fc colonGroups).simMap = [] ∧
    GetSimilarityFolderGroup (CalculateSimilarity s2Fc colonGroups) "a:b" = [] := by
  refine ⟨?_, by decide, by decide, by decide⟩
  intro fc groups k pr hlk
  have hkinv := (stepB_invs fc (stepA fc groups) (stepA_invs fc groups)).1
  have hmem : (k, pr) ∈ (CalculateSimilarity fc groups).pairs := alookup_mem _ _ _ hlk
  have hk : k = folderPairKey pr.1.path pr.2.path := hkinv (k, pr) hmem
  refine ⟨hk, ?_⟩
  intro h1 h2
  have hsplit : goSplit k = (if goStrLt pr.2.path pr.1.path then [pr.2.path, pr.1.path]
      else [pr.1.path, pr.2.path]) := by
    rw [hk]
    unfold folderPairKey
    by_cases hlt : goStrLt pr.2.path pr.1.path
    · rw [if_pos hlt, if_pos hlt]
      exact goSplit_sep _ _ h2 h1
    · rw [if_neg hlt, if_neg hlt]
      exact goSplit_sep _ _ h1 h2
  refine ⟨hsplit, ?_⟩
  intro hne
  have hsm : (CalculateSimilarity fc groups).simMap =
      buildSimMap (stepB fc (stepA fc groups)) := rfl
  by_cases hlt : goStrLt pr.2.path pr.1.path
  · have hsplit2 : goSplit k = [pr.2.path, pr.1.path] := by rw [hsplit, if_pos hlt]
    have hb := buildSimMap_mem (stepB fc (stepA fc groups)) k pr pr.2.path pr.1.path
      hmem hsplit2 (fun h => hne h.symm)
    rw [hsm]
    exact ⟨hb.2, hb.1⟩
  · have hsplit2 : goSplit k = [pr.1.path, pr.2.path] := by rw [hsplit, if_neg hlt]
    have hb := buildSimMap_mem (stepB fc (stepA fc groups)) k pr pr.1.path pr.2.path
      hmem hsplit2 hne
    rw [hsm]
    exact hb

theorem C10_witness :
    goSplit "p:q" = ["p", "q"] ∧
    "p:q" ∈ alookupD (CalculateSimilarity s2Fc s2Groups).simMap "p" [] ∧
    "p:q" ∈ alookupD (CalculateSimilarity s2Fc s2Groups).simMap "q" [] := by
  have h := (C10_colon_free_keys_reverse_index.1 s2Fc s2Groups "p:q"
    (⟨"p", 2, [], 2⟩, ⟨"q", 2, [], 2⟩) (by decide)).2 (by decide) (by decide)
  refine ⟨?_, (h.2 (by decide)).1, (h.2 (by decide)).2⟩
  rw [h.1]
  decide
